import Mathlib

/-!
Verification of the pack trust/update engine (shallow embedding of src/main.go).

Go byte strings are modelled as `List Char` (`Str`); Go functions returning
`(T, error)` are modelled with `Option`/`Except`; external collaborators
(the network, the git remote-ref query, the SHA-256 digest from crypto/sha256,
the Ed25519 curve arithmetic from crypto/ed25519) are passed in as explicit
function parameters, so every embedded definition is executable.
-/

namespace Pack

/-- Strings are lists of characters (Go byte/rune strings). -/
abbrev Str := List Char

/-- Coerce a Lean string literal to the `Str` model. -/
def strL (s : String) : Str := s.data

/-- Whitespace predicate of Go `unicode.IsSpace` (the White Space property). -/
def isGoSpace (c : Char) : Bool :=
  decide (c.toNat = 9 ∨ c.toNat = 10 ∨ c.toNat = 11 ∨ c.toNat = 12 ∨ c.toNat = 13 ∨
    c.toNat = 32 ∨ c.toNat = 0x85 ∨ c.toNat = 0xA0 ∨ c.toNat = 0x1680 ∨
    (0x2000 ≤ c.toNat ∧ c.toNat ≤ 0x200A) ∨ c.toNat = 0x2028 ∨ c.toNat = 0x2029 ∨
    c.toNat = 0x202F ∨ c.toNat = 0x205F ∨ c.toNat = 0x3000)

/-- Left part of Go `strings.TrimSpace`. -/
def trimLeftSpace (s : Str) : Str := s.dropWhile isGoSpace

/-- Right part of Go `strings.TrimSpace`. -/
def trimRightSpace (s : Str) : Str := (s.reverse.dropWhile isGoSpace).reverse

/-- Go `strings.TrimSpace`. -/
def trimSpace (s : Str) : Str := trimRightSpace (trimLeftSpace s)

/-- Go `strings.HasPrefix s pat`. -/
def startsWith (s pat : Str) : Bool := pat.isPrefixOf s

/-- Go `strings.HasSuffix s pat`. -/
def endsWith (s pat : Str) : Bool := pat.reverse.isPrefixOf s.reverse

/-- Go `strings.Contains s pat` (some tail of `s` starts with `pat`). -/
def containsSub (s pat : Str) : Bool := s.tails.any (fun t => startsWith t pat)

/-- Go `strings.Split s "\n"`: split at every newline; always nonempty. -/
def splitOnNl : Str → List Str
  | [] => [[]]
  | c :: rest =>
    if c = '\n' then [] :: splitOnNl rest
    else
      match splitOnNl rest with
      | [] => [[c]]
      | l :: ls => (c :: l) :: ls

/-- Go `strings.Join lines "\n"`. -/
def joinNl : List Str → Str
  | [] => []
  | [l] => l
  | l :: l2 :: ls => l ++ '\n' :: joinNl (l2 :: ls)

/-- Go `strings.SplitN s " " 2`: split at the first space only. -/
def splitN2Space : Str → List Str
  | [] => [[]]
  | c :: rest =>
    if c = ' ' then [[], rest]
    else
      match splitN2Space rest with
      | [] => [[c]]
      | l :: ls => (c :: l) :: ls

theorem splitOnNl_ne_nil (s : Str) : splitOnNl s ≠ [] := by
  induction s with
  | nil => simp [splitOnNl]
  | cons c rest ih =>
    simp only [splitOnNl]
    split
    · simp
    · cases h : splitOnNl rest <;> simp

theorem splitOnNl_no_nl (s : Str) (h : '\n' ∉ s) : splitOnNl s = [s] := by
  induction s with
  | nil => rfl
  | cons c rest ih =>
    simp only [List.mem_cons, not_or] at h
    simp only [splitOnNl, if_neg (Ne.symm h.1)]
    rw [ih h.2]

theorem splitOnNl_append_nl (x s : Str) (h : '\n' ∉ x) :
    splitOnNl (x ++ '\n' :: s) = x :: splitOnNl s := by
  induction x with
  | nil => simp [splitOnNl]
  | cons c rest ih =>
    simp only [List.mem_cons, not_or] at h
    simp only [List.cons_append, splitOnNl, if_neg (Ne.symm h.1), List.append_eq]
    rw [ih h.2]

theorem mem_splitOnNl_no_nl (s l : Str) (h : l ∈ splitOnNl s) : '\n' ∉ l := by
  induction s generalizing l with
  | nil =>
    simp only [splitOnNl, List.mem_singleton] at h
    subst h; simp
  | cons c rest ih =>
    simp only [splitOnNl] at h
    by_cases hc : c = '\n'
    · rw [if_pos hc] at h
      rcases List.mem_cons.mp h with h1 | h2
      · subst h1; simp
      · exact ih l h2
    · rw [if_neg hc] at h
      rcases hsp : splitOnNl rest with _ | ⟨l0, ls⟩
      · exact absurd hsp (splitOnNl_ne_nil rest)
      · rw [hsp] at h
        rcases List.mem_cons.mp h with h1 | h2
        · subst h1
          have h0 : l0 ∈ splitOnNl rest := by rw [hsp]; simp
          have := ih l0 h0
          simp only [List.mem_cons, not_or]
          exact ⟨Ne.symm hc, this⟩
        · exact ih l (by rw [hsp]; simp [h2])

theorem splitOnNl_joinNl (ls : List Str) (hne : ls ≠ [])
    (h : ∀ l ∈ ls, '\n' ∉ l) : splitOnNl (joinNl ls) = ls := by
  induction ls with
  | nil => exact absurd rfl hne
  | cons l rest ih =>
    cases rest with
    | nil =>
      simp only [joinNl]
      exact splitOnNl_no_nl l (h l (by simp))
    | cons l2 rest2 =>
      simp only [joinNl]
      rw [splitOnNl_append_nl l _ (h l (by simp))]
      rw [ih (by simp) (fun x hx => h x (by simp [hx]))]

/-! ## ContentHasher: removeCSHA256Field and calculateRecipeVersion (src/main.go:2404, 2300) -/

/-- Detects lines dropped by `removeCSHA256Field`: the trimmed line must be
nonempty and start with the token `sha256` followed by a space. -/
def isSHA256FieldLine (line : Str) : Bool :=
  decide (trimSpace line ≠ []) && startsWith (trimSpace line) (strL "sha256 ")

/-- Go `removeCSHA256Field` (src/main.go:2404): split on newlines, drop every
hash-field line, rejoin.  The Go version also returns an error value that is
always nil, which is omitted here. -/
def removeCSHA256Field (content : Str) : Str :=
  joinNl ((splitOnNl content).filter (fun l => !(isSHA256FieldLine l)))

/-- Pure core of Go `calculateRecipeVersion` (src/main.go:2300): the SHA-256
hex digest (crypto/sha256, external library) is passed in as `sha`. -/
def calculateRecipeVersionContent (sha : Str → Str) (content : Str) : Str :=
  sha (removeCSHA256Field content)

theorem removeCSHA256Field_idem (content : Str) :
    removeCSHA256Field (removeCSHA256Field content) = removeCSHA256Field content := by
  unfold removeCSHA256Field
  set p : Str → Bool := fun l => !(isSHA256FieldLine l) with hp
  rcases hf : (splitOnNl content).filter p with _ | ⟨l0, ls0⟩
  · have hempty : isSHA256FieldLine ([] : Str) = false := by decide
    simp [joinNl, splitOnNl, hp, hempty]
  · rw [← hf]
    have hnn : (splitOnNl content).filter p ≠ [] := by rw [hf]; simp
    have hno : ∀ l ∈ (splitOnNl content).filter p, '\n' ∉ l := by
      intro l hl
      exact mem_splitOnNl_no_nl content l (List.mem_of_mem_filter hl)
    rw [splitOnNl_joinNl _ hnn hno]
    rw [List.filter_eq_self.mpr (fun a ha => (List.mem_filter.mp ha).2)]

/-- C1: the hash-field stripping procedure is idempotent, so the content hash
(for any digest function, in particular SHA-256) is invariant to whether the
input still contained a hash-field line. -/
theorem c1_content_hash_strip_invariant :
    (∀ content : Str,
      removeCSHA256Field (removeCSHA256Field content) = removeCSHA256Field content) ∧
    (∀ (sha : Str → Str) (content : Str),
      calculateRecipeVersionContent sha (removeCSHA256Field content) =
        calculateRecipeVersionContent sha content) := by
  refine ⟨removeCSHA256Field_idem, ?_⟩
  intro sha content
  unfold calculateRecipeVersionContent
  rw [removeCSHA256Field_idem]

/-! ## KeyStore and Verifier: the key rotation fallback chain
(verifyWithKeyChain src/main.go:1388, fetchPreviousKeyVersions src/main.go:1452) -/

/-- Go struct `KeyMetadata` (src/main.go:1611).  Go `int`/`int64` are modelled
as unbounded `Int`. -/
structure KeyMetadata where
  Version : Int
  IssuedAt : Int
  ExpiresAt : Int
  Algorithm : Str
  Key : Str
deriving DecidableEq, Repr

/-- External world seen by one run of `verifyWithKeyChain`: the cached key, the
two network fetches of `keys/pack.box` (before and after the forced cache
clear), the per-version fetches of `keys/pack_v{n}.box`, and the legacy
`keys/pack.pub` fetch.  `none` models a Go error return. -/
structure KeyChainEnv where
  cachedKey : Option Str
  fetchMeta : Option KeyMetadata
  fetchPrev : Int → Option KeyMetadata
  legacyKey : Option Str
  refetchMeta : Option KeyMetadata

/-- Versions attempted by the loop in `fetchPreviousKeyVersions`
(src/main.go:1457): `for i := 1; i <= 3 && currentVersion-i >= 0; i++`. -/
def versionsToTry (v : Int) : List Int :=
  ([1, 2, 3].takeWhile (fun i => decide (0 ≤ v - i))).map (fun i => v - i)

/-- Keys collected by `fetchPreviousKeyVersions`: versions that fail to fetch
or to parse are skipped; the parsed key is taken without format validation. -/
def prevKeys (env : KeyChainEnv) (v : Int) : List Str :=
  (versionsToTry v).filterMap (fun ver => (env.fetchPrev ver).map KeyMetadata.Key)

/-- Go `fetchPreviousKeyVersions` (src/main.go:1452): an empty collection is
reported as an error. -/
def fetchPreviousKeyVersions (env : KeyChainEnv) (v : Int) : Option (List Str) :=
  if prevKeys env v = [] then none else some (prevKeys env v)

/-- Steps 4 and 5 of `verifyWithKeyChain` (src/main.go:1415-1429): legacy
`.pub` key, then one forced cache-clear plus re-fetch. -/
def chainStep4 (env : KeyChainEnv) (ok : Str → Bool) : Option Str :=
  match env.legacyKey with
  | some k => if ok k then some k else
      match env.refetchMeta with
      | some m => if ok m.Key then some m.Key else none
      | none => none
  | none =>
      match env.refetchMeta with
      | some m => if ok m.Key then some m.Key else none
      | none => none

/-- Steps 2 and 3 of `verifyWithKeyChain` (src/main.go:1397-1413): fresh
versioned fetch, then up to three previous versions (only reachable when the
fresh fetch succeeded, since they decrement from its version). -/
def chainStep2 (env : KeyChainEnv) (ok : Str → Bool) : Option Str :=
  match env.fetchMeta with
  | some m =>
      if ok m.Key then some m.Key
      else
        match fetchPreviousKeyVersions env m.Version with
        | some prevs =>
            match prevs.find? ok with
            | some k => some k
            | none => chainStep4 env ok
        | none => chainStep4 env ok
  | none => chainStep4 env ok

/-- Go `verifyWithKeyChain` (src/main.go:1388), with the signature check
against one key abstracted to `ok` and cache writes kept out of the result
(Go caches inside `fetchKeyMetadata` and after a step-2/step-5 success).
Returns the accepted key, or `none` for the final verification failure. -/
def verifyWithKeyChain (env : KeyChainEnv) (ok : Str → Bool) : Option Str :=
  match env.cachedKey with
  | some k => if ok k then some k else chainStep2 env ok
  | none => chainStep2 env ok

/-- Candidate keys in the order asserted by the specification: cached key,
freshly fetched versioned key, up to three previous versions, legacy key, and
the post-cache-clear re-fetch. -/
def candidateKeys (env : KeyChainEnv) : List Str :=
  env.cachedKey.toList ++ (env.fetchMeta.map KeyMetadata.Key).toList ++
    (match env.fetchMeta with
     | some m => prevKeys env m.Version
     | none => []) ++
    env.legacyKey.toList ++ (env.refetchMeta.map KeyMetadata.Key).toList

theorem findFirst_append {α : Type} (p : α → Bool) (l1 l2 : List α) :
    (l1 ++ l2).find? p =
      (match l1.find? p with
       | some x => some x
       | none => l2.find? p) := by
  induction l1 with
  | nil => simp
  | cons a l1 ih =>
    by_cases h : p a = true
    · simp [List.find?, h]
    · simp only [Bool.not_eq_true] at h
      simp [List.find?, h, ih]

theorem chainStep4_eq_find (env : KeyChainEnv) (ok : Str → Bool) :
    chainStep4 env ok =
      (env.legacyKey.toList ++ (env.refetchMeta.map KeyMetadata.Key).toList).find? ok := by
  unfold chainStep4
  cases env.legacyKey with
  | none =>
    cases env.refetchMeta with
    | none => simp
    | some m =>
      by_cases h : ok m.Key = true
      · simp [List.find?, h]
      · simp only [Bool.not_eq_true] at h
        simp [List.find?, h]
  | some k =>
    by_cases hk : ok k = true
    · simp [List.find?, hk]
    · simp only [Bool.not_eq_true] at hk
      cases env.refetchMeta with
      | none => simp [List.find?, hk]
      | some m =>
        by_cases h : ok m.Key = true
        · simp [List.find?, hk, h]
        · simp only [Bool.not_eq_true] at h
          simp [List.find?, hk, h]

theorem chainStep2_eq_find (env : KeyChainEnv) (ok : Str → Bool) :
    chainStep2 env ok =
      ((env.fetchMeta.map KeyMetadata.Key).toList ++
        (match env.fetchMeta with
         | some m => prevKeys env m.Version
         | none => []) ++
        env.legacyKey.toList ++ (env.refetchMeta.map KeyMetadata.Key).toList).find? ok := by
  unfold chainStep2 fetchPreviousKeyVersions
  cases hm : env.fetchMeta with
  | none => simp [chainStep4_eq_find]
  | some m =>
    simp only [Option.map_some, Option.toList_some, List.cons_append, List.nil_append]
    by_cases hk : ok m.Key = true
    · simp [List.find?, hk]
    · simp only [Bool.not_eq_true] at hk
      simp only [List.find?, hk]
      by_cases hp : prevKeys env m.Version = []
      · simp [hp, chainStep4_eq_find, List.append_assoc]
      · simp only [if_neg hp, findFirst_append, List.append_assoc]
        rcases hf : (prevKeys env m.Version).find? ok with _ | k
        · simp [chainStep4_eq_find, findFirst_append, hf]
        · simp [hf]

/-- C2: signature verification tries exactly the specified candidate key
sequence in order and succeeds with the first key that validates. -/
theorem c2_key_chain_order (env : KeyChainEnv) (ok : Str → Bool) :
    verifyWithKeyChain env ok = (candidateKeys env).find? ok := by
  unfold verifyWithKeyChain candidateKeys
  cases hc : env.cachedKey with
  | none => simp [chainStep2_eq_find, List.append_assoc]
  | some k =>
    by_cases hk : ok k = true
    · simp [List.find?, hk]
    · simp only [Bool.not_eq_true] at hk
      simp [List.find?, hk, chainStep2_eq_find, List.append_assoc]

/-! ## Verifier: base64 decoding and Ed25519 signature checks
(verifySignatureWithKey src/main.go:1434, verifyEd25519Signature src/main.go:1355) -/

/-- Value of one base64 alphabet character (encoding/base64 StdEncoding). -/
def b64Val (c : Char) : Option Nat :=
  if 'A' ≤ c ∧ c ≤ 'Z' then some (c.toNat - 65)
  else if 'a' ≤ c ∧ c ≤ 'z' then some (c.toNat - 71)
  else if '0' ≤ c ∧ c ≤ '9' then some (c.toNat + 4)
  else if c = '+' then some 62
  else if c = '/' then some 63
  else none

/-- Decode base64 quadruples; padding with one or two `=` is allowed only in
the final quadruple, matching Go StdEncoding. -/
def b64Chunks : Str → Option (List Nat)
  | [] => some []
  | a :: b :: c :: d :: rest =>
    match b64Val a, b64Val b with
    | some va, some vb =>
      if c = '=' then
        if d = '=' ∧ rest = [] then some [va * 4 + vb / 16] else none
      else
        match b64Val c with
        | some vc =>
          if d = '=' then
            if rest = [] then some [va * 4 + vb / 16, (vb % 16) * 16 + vc / 4] else none
          else
            match b64Val d with
            | some vd =>
              match b64Chunks rest with
              | some bs =>
                some ((va * 4 + vb / 16) :: ((vb % 16) * 16 + vc / 4) ::
                  ((vc % 4) * 64 + vd) :: bs)
              | none => none
            | none => none
        | none => none
    | _, _ => none
  | _ => none

/-- Go `base64.StdEncoding.DecodeString`: carriage returns and newlines are
ignored, everything else must be valid padded base64. -/
def goBase64Decode (s : Str) : Option (List Nat) :=
  b64Chunks (s.filter (fun c => !(c = '\n' ∨ c = '\r' : Bool)))

/-- Go `crypto/ed25519.Verify`: panics (`none`) when the public key is not 32
bytes, returns `false` for a signature that is not 64 bytes, and otherwise
defers to the curve arithmetic `core` (external library). -/
def ed25519VerifyGo (core : List Nat → List Nat → List Nat → Bool)
    (pub msg sig : List Nat) : Option Bool :=
  if pub.length ≠ 32 then none
  else if sig.length ≠ 64 then some false
  else some (core pub msg sig)

/-- Outcome of a fallible Go call: `none` models a panic, `some (Except.error e)`
an error return, `some (Except.ok ())` success. -/
abbrev GoCall := Option (Except Str Unit)

/-- Go `verifySignatureWithKey` (src/main.go:1434): decode the base64 key,
check its size, then run Ed25519 verification. -/
def verifySignatureWithKey (core : List Nat → List Nat → List Nat → Bool)
    (content sig : List Nat) (pubkeyB64 : Str) : GoCall :=
  match goBase64Decode pubkeyB64 with
  | none => some (Except.error (strL "invalid base64 public key"))
  | some pk =>
    if pk.length ≠ 32 then some (Except.error (strL "invalid public key size"))
    else
      match ed25519VerifyGo core pk content sig with
      | none => none
      | some true => some (Except.ok ())
      | some false => some (Except.error (strL "signature verification failed"))

/-- Boolean acceptance used when the key chain consumes
`verifySignatureWithKey` (justified by `c3`, which shows the call never
panics). -/
def keyOk (core : List Nat → List Nat → List Nat → Bool)
    (content sig : List Nat) (k : Str) : Bool :=
  match verifySignatureWithKey core content sig k with
  | some (Except.ok _) => true
  | _ => false

/-- Pure core of Go `verifyEd25519Signature` (src/main.go:1355) after the
signature file has been fetched: trim it, decode it, then run the key chain. -/
def verifyEd25519SignatureCore (core : List Nat → List Nat → List Nat → Bool)
    (env : KeyChainEnv) (content : List Nat) (sigFile : Str) : GoCall :=
  match goBase64Decode (trimSpace sigFile) with
  | none => some (Except.error (strL "invalid base64 signature"))
  | some sig =>
    match verifyWithKeyChain env (keyOk core content sig) with
    | some _ => some (Except.ok ())
    | none => some (Except.error (strL "signature verification failed with all available keys"))

theorem verifySignatureWithKey_of_decode
    (core : List Nat → List Nat → List Nat → Bool) (content sig : List Nat)
    (pubkeyB64 : Str) (pk : List Nat) (hd : goBase64Decode pubkeyB64 = some pk) :
    verifySignatureWithKey core content sig pubkeyB64 =
      (if pk.length ≠ 32 then some (Except.error (strL "invalid public key size"))
       else
        match ed25519VerifyGo core pk content sig with
        | none => none
        | some true => some (Except.ok ())
        | some false => some (Except.error (strL "signature verification failed"))) := by
  unfold verifySignatureWithKey
  rw [hd]

/-- C3: signature verification fails rather than crashing on malformed base64,
truncated signatures, or wrong-size keys; the Ed25519 curve step is only ever
reached with a 32-byte key and a 64-byte signature. -/
theorem c3_verification_never_crashes
    (core : List Nat → List Nat → List Nat → Bool)
    (content sig : List Nat) (pubkeyB64 : Str) :
    (verifySignatureWithKey core content sig pubkeyB64 ≠ none) ∧
    (goBase64Decode pubkeyB64 = none →
      verifySignatureWithKey core content sig pubkeyB64 =
        some (Except.error (strL "invalid base64 public key"))) ∧
    (∀ pk, goBase64Decode pubkeyB64 = some pk → pk.length ≠ 32 →
      verifySignatureWithKey core content sig pubkeyB64 =
        some (Except.error (strL "invalid public key size"))) ∧
    (verifySignatureWithKey core content sig pubkeyB64 = some (Except.ok ()) →
      ∃ pk, goBase64Decode pubkeyB64 = some pk ∧ pk.length = 32 ∧
        sig.length = 64 ∧ core pk content sig = true) ∧
    (∀ (env : KeyChainEnv) (sigFile : Str), goBase64Decode (trimSpace sigFile) = none →
      verifyEd25519SignatureCore core env content sigFile =
        some (Except.error (strL "invalid base64 signature"))) := by
  refine ⟨?_, ?_, ?_, ?_, ?_⟩
  · unfold verifySignatureWithKey ed25519VerifyGo
    rcases hd : goBase64Decode pubkeyB64 with _ | pk
    · simp
    · by_cases hl : pk.length = 32
      · simp only [if_neg (by simp [hl] : ¬pk.length ≠ 32)]
        by_cases hs : sig.length = 64
        · simp only [if_pos hl, if_neg (by simp [hs] : ¬sig.length ≠ 64)]
          cases core pk content sig <;> simp
        · simp [hl, hs]
      · simp [hl]
  · intro hd
    unfold verifySignatureWithKey
    rw [hd]
  · intro pk hd hl
    unfold verifySignatureWithKey
    rw [hd]
    simp [hl]
  · intro hok
    rcases hd : goBase64Decode pubkeyB64 with _ | pk
    · unfold verifySignatureWithKey at hok
      rw [hd] at hok; simp at hok
    · rw [verifySignatureWithKey_of_decode core content sig pubkeyB64 pk hd] at hok
      by_cases hl : pk.length = 32
      · rw [if_neg (by simp [hl] : ¬pk.length ≠ 32)] at hok
        unfold ed25519VerifyGo at hok
        rw [if_neg (by simp [hl] : ¬pk.length ≠ 32)] at hok
        by_cases hs : sig.length = 64
        · rw [if_neg (by simp [hs] : ¬sig.length ≠ 64)] at hok
          refine ⟨pk, rfl, hl, hs, ?_⟩
          cases hc : core pk content sig
          · rw [hc] at hok; simp at hok
          · rfl
        · rw [if_pos (by simp [hs] : sig.length ≠ 64)] at hok
          simp at hok
      · rw [if_pos (by simp [hl] : pk.length ≠ 32)] at hok
        simp at hok
  · intro env sigFile hd
    unfold verifyEd25519SignatureCore
    rw [hd]

/-- Witness for `c3_verification_never_crashes` at a concrete malformed key,
with a 10-byte truncated signature. -/
theorem c3_witness :
    goBase64Decode (strL "!not-base64!") = none ∧
    verifySignatureWithKey (fun _ _ _ => true) [1, 2] [0, 0, 0, 0, 0, 0, 0, 0, 0, 0]
      (strL "!not-base64!") = some (Except.error (strL "invalid base64 public key")) := by
  refine ⟨by decide, ?_⟩
  exact (c3_verification_never_crashes (fun _ _ _ => true) [1, 2]
    [0, 0, 0, 0, 0, 0, 0, 0, 0, 0] (strL "!not-base64!")).2.1 (by decide)

/-! ## KeyStore: fetching and validating key documents
(fetchKeyMetadata src/main.go:1620, fetchLegacyPublicKey src/main.go:1659,
parseKeyMetadataSimple src/main.go:1954) -/

/-- Accumulator loop for Go `strings.Fields`: `acc` is the current word,
reversed. -/
def goFieldsGo : Str → Str → List Str
  | [], acc => if acc = [] then [] else [acc.reverse]
  | c :: rest, acc =>
    if isGoSpace c then
      if acc = [] then goFieldsGo rest [] else acc.reverse :: goFieldsGo rest []
    else goFieldsGo rest (c :: acc)

/-- Go `strings.Fields`: maximal runs of non-whitespace characters. -/
def goFields (s : Str) : List Str := goFieldsGo s []

/-- Go `strconv.Atoi` on a digit run (64-bit overflow is not modelled; the
version numbers involved are tiny). -/
def goAtoiDigits (s : Str) : Option Nat :=
  if s = [] then none
  else s.foldl (fun acc c =>
    match acc with
    | some a => if '0' ≤ c ∧ c ≤ '9' then some (a * 10 + (c.toNat - 48)) else none
    | none => none) (some 0)

/-- Go `strconv.Atoi` / `strconv.ParseInt` base 10. -/
def goAtoi (s : Str) : Option Int :=
  match s with
  | '+' :: rest => (goAtoiDigits rest).map Int.ofNat
  | '-' :: rest => (goAtoiDigits rest).map (fun n => -(n : Int))
  | _ => (goAtoiDigits s).map Int.ofNat

/-- Field updates of one line inside the keyinfo block
(src/main.go:1983-2002). -/
def kmKeyInfoLine (m : KeyMetadata) (l : Str) : KeyMetadata :=
  if containsSub l (strL " ") then
    match goFields l with
    | k :: v :: _ =>
      if k = strL "version" then
        match goAtoi v with
        | some n => { m with Version := n }
        | none => m
      else if k = strL "issued_at" then
        match goAtoi v with
        | some n => { m with IssuedAt := n }
        | none => m
      else if k = strL "expires_at" then
        match goAtoi v with
        | some n => { m with ExpiresAt := n }
        | none => m
      else if k = strL "algorithm" then { m with Algorithm := v }
      else m
    | _ => m
  else m

/-- Field updates of one line inside the pubkey block
(src/main.go:2003-2008). -/
def kmPubKeyLine (m : KeyMetadata) (l : Str) : KeyMetadata :=
  if containsSub l (strL " ") then
    match goFields l with
    | k :: v :: _ => if k = strL "key" then { m with Key := v } else m
    | _ => m
  else m

/-- Line loop of Go `parseKeyMetadataSimple` (src/main.go:1964-2009). -/
def parseKMLines : List Str → Bool → Bool → KeyMetadata → KeyMetadata
  | [], _, _, m => m
  | line :: rest, inKeyInfo, inPubKey, m =>
    let l := trimSpace line
    if startsWith l (strL "[data -c keyinfo]") then parseKMLines rest true false m
    else if startsWith l (strL "[data -c pubkey]") then parseKMLines rest false true m
    else if l = strL "end" then parseKMLines rest false false m
    else if inKeyInfo then parseKMLines rest inKeyInfo inPubKey (kmKeyInfoLine m l)
    else if inPubKey then parseKMLines rest inKeyInfo inPubKey (kmPubKeyLine m l)
    else parseKMLines rest inKeyInfo inPubKey m

/-- Go `parseKeyMetadataSimple` (src/main.go:1955): an empty key is an error.
The `parseKeyMetadata` wrapper (src/main.go:1842) shells out to the external
Box interpreter when one is installed and falls back to this parser; only the
in-repository fallback is modelled. -/
def parseKeyMetadataSimple (content : Str) : Option KeyMetadata :=
  let m := parseKMLines (splitOnNl content) false false
    { Version := 0, IssuedAt := 0, ExpiresAt := 0, Algorithm := strL "ed25519", Key := [] }
  if m.Key = [] then none else some m

/-- Format check applied to every fetched key (src/main.go:1646 and 1681). -/
def keyFormatOk (k : Str) : Bool :=
  decide (k.length = 44) && endsWith k (strL "=")

/-- Go `fetchKeyMetadata` (src/main.go:1620): `body` is the HTTP response for
`keys/pack.box` (`none` covers request errors, non-200 status, and read
errors).  Returns the parsed metadata plus the list of cache writes made. -/
def fetchKeyMetadata (body : Option Str) : Option KeyMetadata × List KeyMetadata :=
  match body with
  | none => (none, [])
  | some content =>
    match parseKeyMetadataSimple content with
    | none => (none, [])
    | some m => if keyFormatOk m.Key then (some m, [m]) else (none, [])

/-- Go `fetchLegacyPublicKey` (src/main.go:1660): the body of `keys/pack.pub`
is trimmed and validated, then cached as a version-0 record; `now` stands for
`time.Now().Unix()`. -/
def fetchLegacyPublicKey (body : Option Str) (now : Int) : Option Str × List KeyMetadata :=
  match body with
  | none => (none, [])
  | some b =>
    let pubkey := trimSpace b
    if keyFormatOk pubkey then
      (some pubkey,
        [{ Version := 0, IssuedAt := now, ExpiresAt := now + 365 * 24 * 60 * 60,
           Algorithm := strL "ed25519", Key := pubkey }])
    else (none, [])

/-- C10: every key returned or cached by a successful fetch — versioned
metadata document or legacy key file — is exactly 44 base64 characters ending
in `=`; keys failing the check are neither returned nor cached. -/
theorem c10_fetched_keys_validated (body : Option Str) (now : Int) :
    (∀ m : KeyMetadata, (fetchKeyMetadata body).1 = some m →
      m.Key.length = 44 ∧ endsWith m.Key (strL "=") = true) ∧
    (∀ m ∈ (fetchKeyMetadata body).2,
      m.Key.length = 44 ∧ endsWith m.Key (strL "=") = true) ∧
    (∀ k : Str, (fetchLegacyPublicKey body now).1 = some k →
      k.length = 44 ∧ endsWith k (strL "=") = true) ∧
    (∀ m ∈ (fetchLegacyPublicKey body now).2,
      m.Key.length = 44 ∧ endsWith m.Key (strL "=") = true) := by
  have hfmt : ∀ k : Str, keyFormatOk k = true →
      k.length = 44 ∧ endsWith k (strL "=") = true := by
    intro k hk
    unfold keyFormatOk at hk
    simp only [Bool.and_eq_true, decide_eq_true_eq] at hk
    exact hk
  refine ⟨?_, ?_, ?_, ?_⟩
  · intro m hm
    unfold fetchKeyMetadata at hm
    rcases body with _ | content
    · simp at hm
    · simp only at hm
      rcases hp : parseKeyMetadataSimple content with _ | m0
      · simp only [hp] at hm; exact absurd hm (by simp)
      · simp only [hp] at hm
        by_cases hf : keyFormatOk m0.Key = true
        · rw [if_pos hf] at hm
          simp only [Option.some.injEq] at hm
          subst hm
          exact hfmt _ hf
        · rw [if_neg hf] at hm; simp at hm
  · intro m hm
    unfold fetchKeyMetadata at hm
    rcases body with _ | content
    · simp at hm
    · simp only at hm
      rcases hp : parseKeyMetadataSimple content with _ | m0
      · simp only [hp] at hm; simp at hm
      · simp only [hp] at hm
        by_cases hf : keyFormatOk m0.Key = true
        · rw [if_pos hf] at hm
          simp only [List.mem_singleton] at hm
          subst hm
          exact hfmt _ hf
        · rw [if_neg hf] at hm; simp at hm
  · intro k hk
    unfold fetchLegacyPublicKey at hk
    rcases body with _ | b
    · simp at hk
    · simp only at hk
      by_cases hf : keyFormatOk (trimSpace b) = true
      · rw [if_pos hf] at hk
        simp only [Option.some.injEq] at hk
        subst hk
        exact hfmt _ hf
      · rw [if_neg hf] at hk; simp at hk
  · intro m hm
    unfold fetchLegacyPublicKey at hm
    rcases body with _ | b
    · simp at hm
    · simp only at hm
      by_cases hf : keyFormatOk (trimSpace b) = true
      · rw [if_pos hf] at hm
        simp only [List.mem_singleton] at hm
        subst hm
        exact hfmt _ hf
      · rw [if_neg hf] at hm; simp at hm

/-- Witness for `c10_fetched_keys_validated`: a concrete well-formed key
document whose fetch succeeds, and whose key passes the format check. -/
theorem c10_witness :
    (fetchKeyMetadata (some (strL "[data -c keyinfo]\n  version 1\nend\n[data -c pubkey]\n  key AAAAAAAAAAAAAAAAAAAAAAAAAAAAAAAAAAAAAAAAAAA=\nend"))).1 =
      some { Version := 1, IssuedAt := 0, ExpiresAt := 0, Algorithm := strL "ed25519",
             Key := strL "AAAAAAAAAAAAAAAAAAAAAAAAAAAAAAAAAAAAAAAAAAA=" } ∧
    (strL "AAAAAAAAAAAAAAAAAAAAAAAAAAAAAAAAAAAAAAAAAAA=").length = 44 ∧
    endsWith (strL "AAAAAAAAAAAAAAAAAAAAAAAAAAAAAAAAAAAAAAAAAAA=") (strL "=") = true := by
  refine ⟨by decide, ?_⟩
  exact (c10_fetched_keys_validated
    (some (strL "[data -c keyinfo]\n  version 1\nend\n[data -c pubkey]\n  key AAAAAAAAAAAAAAAAAAAAAAAAAAAAAAAAAAAAAAAAAAA=\nend")) 0).1
    { Version := 1, IssuedAt := 0, ExpiresAt := 0, Algorithm := strL "ed25519",
      Key := strL "AAAAAAAAAAAAAAAAAAAAAAAAAAAAAAAAAAAAAAAAAAA=" } (by decide)

/-! ## LockLedger: writing and parsing lock records
(createLockFile src/main.go:2087, parseLockFile src/main.go:2895) -/

/-- Go `map[string]string` as an association list. -/
abbrev LockMap := List (Str × Str)

/-- Go map lookup: a missing key reads as the empty string. -/
def mapGet : LockMap → Str → Str
  | [], _ => []
  | (k0, v0) :: rest, k => if k0 = k then v0 else mapGet rest k

/-- Go comma-ok map membership test. -/
def mapContains : LockMap → Str → Bool
  | [], _ => false
  | (k0, _) :: rest, k => if k0 = k then true else mapContains rest k

/-- Go map assignment. -/
def mapInsert : LockMap → Str → Str → LockMap
  | [], k, v => [(k, v)]
  | (k0, v0) :: rest, k, v =>
    if k0 = k then (k, v) :: rest else (k0, v0) :: mapInsert rest k v

/-- Legacy field-name mapping of `parseLockFile` (src/main.go:2926-2943),
applied after the plain assignment of `key`. -/
def aliasStep (m : LockMap) (k v : Str) : LockMap :=
  if k = strL "source" then
    if mapContains m (strL "src_url") then m else mapInsert m (strL "src_url") v
  else if k = strL "source_type" then
    if mapContains m (strL "src_type") then m else mapInsert m (strL "src_type") v
  else if k = strL "source_version" then
    if mapContains m (strL "src_ref_used") then m else mapInsert m (strL "src_ref_used") v
  else if k = strL "sha256" then
    if mapContains m (strL "recipe_sha256") then m else mapInsert m (strL "recipe_sha256") v
  else m

/-- Line loop of Go `parseLockFile` (src/main.go:2906-2946); returning at
`end` models the `break`. -/
def parseLockLines : List Str → Bool → LockMap → LockMap
  | [], _, m => m
  | line :: rest, inBlock, m =>
    let trimmed := trimSpace line
    if startsWith trimmed (strL "[data") ∧ containsSub trimmed (strL "lock") = true then
      parseLockLines rest true m
    else if inBlock ∧ trimmed = strL "end" then m
    else if inBlock ∧ trimmed ≠ [] ∧ ¬ startsWith trimmed (strL "#") = true then
      match splitN2Space trimmed with
      | k :: v0 :: _ =>
        parseLockLines rest inBlock (aliasStep (mapInsert m k (trimSpace v0)) k (trimSpace v0))
      | _ => parseLockLines rest inBlock m
    else parseLockLines rest inBlock m

/-- Go `parseLockFile` (src/main.go:2895) on file contents. -/
def parseLockFile (content : Str) : LockMap :=
  parseLockLines (splitOnNl content) false []

/-- Lines of the lock file written by Go `createLockFile`
(src/main.go:2112-2127).  The Go function writes `recipe_sha256` from its
`recipeVersion` argument (the content hash) and ignores its `recipeSHA256`
argument; `installedAt`, `shelfPath`, `symlinkPath` and `configDir` stand for
the values Go derives from the clock and the environment.  `trust_state` is
hardcoded to `ed25519` (src/main.go:2109). -/
def lockLines (packageName repo sourceURL sourceType sourceRef sourceVersion
    recipeVersion recipeURL installedAt shelfPath symlinkPath configDir : Str) : List Str :=
  [strL "[data -c lock]",
   strL "  package " ++ packageName,
   strL "  repo " ++ repo,
   strL "  src_url " ++ sourceURL,
   strL "  src_type " ++ sourceType,
   strL "  src_ref " ++ sourceRef,
   strL "  src_ref_used " ++ sourceVersion,
   strL "  recipe_sha256 " ++ recipeVersion,
   strL "  recipe_url " ++ recipeURL,
   strL "  installed_at " ++ installedAt,
   strL "  shelf_path " ++ shelfPath,
   strL "  symlink_path " ++ symlinkPath,
   strL "  config_dir " ++ configDir,
   strL "  trust_state " ++ strL "ed25519",
   strL "end"]

/-- Contents written by Go `createLockFile`: the template joins the lines with
newlines and ends with a trailing newline. -/
def createLockFileContent (packageName repo sourceURL sourceType sourceRef sourceVersion
    recipeVersion recipeURL installedAt shelfPath symlinkPath configDir : Str) : Str :=
  joinNl (lockLines packageName repo sourceURL sourceType sourceRef sourceVersion
    recipeVersion recipeURL installedAt shelfPath symlinkPath configDir) ++ ['\n']

/-! ### Lemmas for evaluating the lock-file parser on written records -/

/-- Values that round-trip through a `key value` line: single-line and free of
leading or trailing whitespace. -/
def lineSafe (v : Str) : Prop :=
  '\n' ∉ v ∧ trimLeftSpace v = v ∧ trimRightSpace v = v

theorem no_nl_append (a v : Str) (ha : '\n' ∉ a) (hv : '\n' ∉ v) : '\n' ∉ a ++ v := by
  simp only [List.mem_append, not_or]
  exact ⟨ha, hv⟩

theorem trimLeftSpace_space_cons (s : Str) : trimLeftSpace (' ' :: s) = trimLeftSpace s := by
  have h : isGoSpace ' ' = true := by decide
  simp [trimLeftSpace, List.dropWhile_cons, h]

theorem trimLeftSpace_nonspace_cons (c : Char) (s : Str) (hc : isGoSpace c = false) :
    trimLeftSpace (c :: s) = c :: s := by
  simp [trimLeftSpace, List.dropWhile_cons, hc]

theorem trimRightSpace_eq_self_append (v : Str) (hv : trimRightSpace v = v) (hne : v ≠ [])
    (pre : Str) : trimRightSpace (pre ++ v) = pre ++ v := by
  unfold trimRightSpace at hv ⊢
  have hrev : v.reverse.dropWhile isGoSpace = v.reverse := by
    have := congrArg List.reverse hv
    simpa using this
  rcases hr : v.reverse with _ | ⟨a, t⟩
  · exact absurd (by simpa using congrArg List.reverse hr) hne
  · have hpa : isGoSpace a = false := by
      rw [hr] at hrev
      have := List.dropWhile_eq_self_iff.mp hrev (by simp)
      simpa using this
    rw [List.reverse_append, hr]
    have hd : List.dropWhile isGoSpace ((a :: t) ++ pre.reverse) = (a :: t) ++ pre.reverse := by
      simp [List.dropWhile_cons, hpa]
    rw [hd, List.reverse_append, List.reverse_reverse, ← hr, List.reverse_reverse]

theorem trimRightSpace_key_space (k : Str) (hk : trimRightSpace k = k) :
    trimRightSpace (k ++ [' ']) = k := by
  unfold trimRightSpace at hk ⊢
  have hrev : k.reverse.dropWhile isGoSpace = k.reverse := by
    have := congrArg List.reverse hk
    simpa using this
  have hsp : isGoSpace ' ' = true := by decide
  rw [List.reverse_append]
  simp only [List.reverse_cons, List.reverse_nil, List.nil_append, List.singleton_append,
    List.dropWhile_cons, hsp, if_pos]
  rw [hrev, List.reverse_reverse]

theorem splitN2Space_no_space (k : Str) (hk : ' ' ∉ k) : splitN2Space k = [k] := by
  induction k with
  | nil => rfl
  | cons c t ih =>
    simp only [List.mem_cons, not_or] at hk
    simp only [splitN2Space, if_neg (Ne.symm hk.1)]
    rw [ih hk.2]

theorem splitN2Space_append (k v : Str) (hk : ' ' ∉ k) :
    splitN2Space (k ++ ' ' :: v) = [k, v] := by
  induction k with
  | nil => simp [splitN2Space]
  | cons c t ih =>
    simp only [List.mem_cons, not_or] at hk
    simp only [List.cons_append, splitN2Space, if_neg (Ne.symm hk.1), List.append_eq]
    rw [ih hk.2]

theorem startsWith_cons_ne (c d : Char) (s t : Str) (h : d ≠ c) :
    startsWith (c :: s) (d :: t) = false := by
  simp [startsWith, List.isPrefixOf, h]

theorem mapGet_insert_eq (m : LockMap) (k v : Str) : mapGet (mapInsert m k v) k = v := by
  induction m with
  | nil => simp [mapInsert, mapGet]
  | cons p rest ih =>
    rcases p with ⟨k0, v0⟩
    by_cases h : k0 = k
    · simp [mapInsert, h, mapGet]
    · simp [mapInsert, h, mapGet, ih]

theorem mapGet_insert_ne (m : LockMap) (k v key : Str) (h : k ≠ key) :
    mapGet (mapInsert m k v) key = mapGet m key := by
  induction m with
  | nil => simp [mapInsert, mapGet, h]
  | cons p rest ih =>
    rcases p with ⟨k0, v0⟩
    by_cases h0 : k0 = k
    · subst h0
      simp [mapInsert, mapGet, if_neg h]
    · simp only [mapInsert, if_neg h0, mapGet]
      by_cases h1 : k0 = key
      · simp [if_pos h1]
      · simp [if_neg h1, ih]

theorem aliasStep_id (m : LockMap) (k v : Str)
    (h1 : k ≠ strL "source") (h2 : k ≠ strL "source_type")
    (h3 : k ≠ strL "source_version") (h4 : k ≠ strL "sha256") :
    aliasStep m k v = m := by
  unfold aliasStep
  rw [if_neg h1, if_neg h2, if_neg h3, if_neg h4]

theorem joinNl_append_nil (ls : List Str) (h : ls ≠ []) :
    joinNl (ls ++ [[]]) = joinNl ls ++ ['\n'] := by
  induction ls with
  | nil => exact absurd rfl h
  | cons l rest ih =>
    cases rest with
    | nil => simp [joinNl]
    | cons l2 r2 =>
      simp only [List.cons_append, joinNl, List.append_eq]
      rw [← List.cons_append l2 r2 [[]], ih (by simp)]
      simp [List.append_assoc]

theorem parseLockLines_open (rest : List Str) (m : LockMap) :
    parseLockLines (strL "[data -c lock]" :: rest) false m = parseLockLines rest true m := by
  simp only [parseLockLines]
  rw [if_pos (by constructor <;> decide)]

theorem parseLockLines_end (rest : List Str) (m : LockMap) :
    parseLockLines (strL "end" :: rest) true m = m := by
  simp only [parseLockLines]
  rw [if_neg (by rintro ⟨h1, h2⟩; revert h1; decide), if_pos ⟨trivial, by decide⟩]

/-- One write step of the parser on a well-formed `key value` line: an empty
value makes the whole line one field, which the parser skips; otherwise the
key is assigned and the legacy aliases are applied. -/
def condStep (m : LockMap) (k v : Str) : LockMap :=
  if v = [] then m else aliasStep (mapInsert m k v) k v

theorem parseLockLines_field (k pre v : Str) (rest : List Str) (m : LockMap)
    (hpre : pre = strL "  " ++ (k ++ [' ']))
    (hknil : k ≠ [])
    (hksp : ' ' ∉ k)
    (hktr : trimRightSpace k = k)
    (hhead : isGoSpace (k.headD 'x') = false ∧ k.headD 'x' ≠ '[' ∧
      k.headD 'x' ≠ '#' ∧ k.headD 'x' ≠ 'e')
    (hvl : trimLeftSpace v = v) (hvr : trimRightSpace v = v) :
    parseLockLines ((pre ++ v) :: rest) true m =
      parseLockLines rest true (condStep m k v) := by
  unfold condStep
  rcases k with _ | ⟨c, kt⟩
  · exact absurd rfl hknil
  simp only [List.headD_cons] at hhead
  obtain ⟨hc1, hc2, hc3, hc4⟩ := hhead
  have hline : pre ++ v = ' ' :: ' ' :: ((c :: kt) ++ ' ' :: v) := by
    subst hpre
    simp [strL, List.append_assoc]
  have htrimL : trimLeftSpace (pre ++ v) = (c :: kt) ++ ' ' :: v := by
    rw [hline, trimLeftSpace_space_cons, trimLeftSpace_space_cons, List.cons_append,
      trimLeftSpace_nonspace_cons _ _ hc1]
  have htrim : trimSpace (pre ++ v) = if v = [] then c :: kt else (c :: kt) ++ ' ' :: v := by
    unfold trimSpace
    rw [htrimL]
    by_cases hv0 : v = []
    · subst hv0
      rw [if_pos rfl]
      exact trimRightSpace_key_space _ hktr
    · rw [if_neg hv0]
      rw [show (c :: kt) ++ ' ' :: v = ((c :: kt) ++ [' ']) ++ v by simp [List.append_assoc]]
      rw [trimRightSpace_eq_self_append v hvr hv0]
  by_cases hv0 : v = []
  · subst hv0
    rw [if_pos rfl] at htrim
    simp only [parseLockLines, htrim]
    rw [if_neg (by
      rintro ⟨h1, _⟩
      rw [show strL "[data" = '[' :: strL "data" from rfl] at h1
      rw [startsWith_cons_ne _ _ _ _ (Ne.symm hc2)] at h1
      exact absurd h1 (by simp))]
    rw [if_neg (by
      rintro ⟨_, h2⟩
      rw [show strL "end" = 'e' :: strL "nd" from rfl] at h2
      exact hc4 (List.cons.inj h2).1)]
    rw [if_pos ⟨trivial, by simp, by
      rw [show strL "#" = '#' :: ([] : Str) from rfl]
      rw [startsWith_cons_ne _ _ _ _ (Ne.symm hc3)]
      simp⟩]
    rw [splitN2Space_no_space _ hksp]
    simp
  · rw [if_neg hv0] at htrim
    rw [if_neg hv0]
    simp only [parseLockLines, htrim]
    rw [if_neg (by
      rintro ⟨h1, _⟩
      rw [List.cons_append] at h1
      rw [show strL "[data" = '[' :: strL "data" from rfl] at h1
      rw [startsWith_cons_ne _ _ _ _ (Ne.symm hc2)] at h1
      exact absurd h1 (by simp))]
    rw [if_neg (by
      rintro ⟨_, h2⟩
      rw [List.cons_append] at h2
      rw [show strL "end" = 'e' :: strL "nd" from rfl] at h2
      exact hc4 ((List.cons.inj h2).1))]
    rw [if_pos ⟨trivial, by simp, by
      rw [List.cons_append]
      rw [show strL "#" = '#' :: ([] : Str) from rfl]
      rw [startsWith_cons_ne _ _ _ _ (Ne.symm hc3)]
      simp⟩]
    rw [splitN2Space_append _ _ hksp]
    simp only
    unfold trimSpace
    rw [hvl, hvr]

theorem mapGet_condStep_ne (m : LockMap) (k v key : Str)
    (h : k ≠ key ∧ k ≠ strL "source" ∧ k ≠ strL "source_type" ∧
      k ≠ strL "source_version" ∧ k ≠ strL "sha256") :
    mapGet (condStep m k v) key = mapGet m key := by
  unfold condStep
  by_cases hv : v = []
  · rw [if_pos hv]
  · rw [if_neg hv, aliasStep_id _ _ _ h.2.1 h.2.2.1 h.2.2.2.1 h.2.2.2.2,
      mapGet_insert_ne _ _ _ _ h.1]

theorem mapGet_condStep_eq (m : LockMap) (k v : Str)
    (h : k ≠ strL "source" ∧ k ≠ strL "source_type" ∧
      k ≠ strL "source_version" ∧ k ≠ strL "sha256") :
    mapGet (condStep m k v) k = if v = [] then mapGet m k else v := by
  unfold condStep
  by_cases hv : v = []
  · rw [if_pos hv, if_pos hv]
  · rw [if_neg hv, if_neg hv, aliasStep_id _ _ _ h.1 h.2.1 h.2.2.1 h.2.2.2,
      mapGet_insert_eq]

/-- Parsing a record file written by `createLockFile` reduces to one `condStep`
per field line. -/
theorem parseLock_createLock (packageName repo sourceURL sourceType sourceRef sourceVersion
    recipeVersion recipeURL installedAt shelfPath symlinkPath configDir : Str)
    (h1 : lineSafe packageName) (h2 : lineSafe repo) (h3 : lineSafe sourceURL)
    (h4 : lineSafe sourceType) (h5 : lineSafe sourceRef) (h6 : lineSafe sourceVersion)
    (h7 : lineSafe recipeVersion) (h8 : lineSafe recipeURL) (h9 : lineSafe installedAt)
    (h10 : lineSafe shelfPath) (h11 : lineSafe symlinkPath) (h12 : lineSafe configDir) :
    parseLockFile (createLockFileContent packageName repo sourceURL sourceType sourceRef
        sourceVersion recipeVersion recipeURL installedAt shelfPath symlinkPath configDir) =
      condStep (condStep (condStep (condStep (condStep (condStep (condStep (condStep
        (condStep (condStep (condStep (condStep (condStep []
          (strL "package") packageName)
          (strL "repo") repo)
          (strL "src_url") sourceURL)
          (strL "src_type") sourceType)
          (strL "src_ref") sourceRef)
          (strL "src_ref_used") sourceVersion)
          (strL "recipe_sha256") recipeVersion)
          (strL "recipe_url") recipeURL)
          (strL "installed_at") installedAt)
          (strL "shelf_path") shelfPath)
          (strL "symlink_path") symlinkPath)
          (strL "config_dir") configDir)
          (strL "trust_state") (strL "ed25519") := by
  have hsplit : splitOnNl (createLockFileContent packageName repo sourceURL sourceType
      sourceRef sourceVersion recipeVersion recipeURL installedAt shelfPath symlinkPath
      configDir) =
      lockLines packageName repo sourceURL sourceType sourceRef sourceVersion
        recipeVersion recipeURL installedAt shelfPath symlinkPath configDir ++ [[]] := by
    unfold createLockFileContent
    rw [← joinNl_append_nil _ (by simp [lockLines])]
    refine splitOnNl_joinNl _ (by simp [lockLines]) ?_
    intro l hl
    simp only [lockLines, List.mem_append, List.mem_cons, List.mem_singleton,
      List.not_mem_nil, or_false, or_assoc] at hl
    rcases hl with rfl|rfl|rfl|rfl|rfl|rfl|rfl|rfl|rfl|rfl|rfl|rfl|rfl|rfl|rfl|rfl
    · decide
    · exact no_nl_append _ _ (by decide) h1.1
    · exact no_nl_append _ _ (by decide) h2.1
    · exact no_nl_append _ _ (by decide) h3.1
    · exact no_nl_append _ _ (by decide) h4.1
    · exact no_nl_append _ _ (by decide) h5.1
    · exact no_nl_append _ _ (by decide) h6.1
    · exact no_nl_append _ _ (by decide) h7.1
    · exact no_nl_append _ _ (by decide) h8.1
    · exact no_nl_append _ _ (by decide) h9.1
    · exact no_nl_append _ _ (by decide) h10.1
    · exact no_nl_append _ _ (by decide) h11.1
    · exact no_nl_append _ _ (by decide) h12.1
    · decide
    · decide
    · decide
  unfold parseLockFile
  rw [hsplit]
  simp only [lockLines, List.cons_append, List.nil_append]
  rw [parseLockLines_open]
  rw [parseLockLines_field (strL "package") (strL "  package ") packageName _ _
    (by decide) (by decide) (by decide) (by decide) (by decide) h1.2.1 h1.2.2]
  rw [parseLockLines_field (strL "repo") (strL "  repo ") repo _ _
    (by decide) (by decide) (by decide) (by decide) (by decide) h2.2.1 h2.2.2]
  rw [parseLockLines_field (strL "src_url") (strL "  src_url ") sourceURL _ _
    (by decide) (by decide) (by decide) (by decide) (by decide) h3.2.1 h3.2.2]
  rw [parseLockLines_field (strL "src_type") (strL "  src_type ") sourceType _ _
    (by decide) (by decide) (by decide) (by decide) (by decide) h4.2.1 h4.2.2]
  rw [parseLockLines_field (strL "src_ref") (strL "  src_ref ") sourceRef _ _
    (by decide) (by decide) (by decide) (by decide) (by decide) h5.2.1 h5.2.2]
  rw [parseLockLines_field (strL "src_ref_used") (strL "  src_ref_used ") sourceVersion _ _
    (by decide) (by decide) (by decide) (by decide) (by decide) h6.2.1 h6.2.2]
  rw [parseLockLines_field (strL "recipe_sha256") (strL "  recipe_sha256 ") recipeVersion _ _
    (by decide) (by decide) (by decide) (by decide) (by decide) h7.2.1 h7.2.2]
  rw [parseLockLines_field (strL "recipe_url") (strL "  recipe_url ") recipeURL _ _
    (by decide) (by decide) (by decide) (by decide) (by decide) h8.2.1 h8.2.2]
  rw [parseLockLines_field (strL "installed_at") (strL "  installed_at ") installedAt _ _
    (by decide) (by decide) (by decide) (by decide) (by decide) h9.2.1 h9.2.2]
  rw [parseLockLines_field (strL "shelf_path") (strL "  shelf_path ") shelfPath _ _
    (by decide) (by decide) (by decide) (by decide) (by decide) h10.2.1 h10.2.2]
  rw [parseLockLines_field (strL "symlink_path") (strL "  symlink_path ") symlinkPath _ _
    (by decide) (by decide) (by decide) (by decide) (by decide) h11.2.1 h11.2.2]
  rw [parseLockLines_field (strL "config_dir") (strL "  config_dir ") configDir _ _
    (by decide) (by decide) (by decide) (by decide) (by decide) h12.2.1 h12.2.2]
  rw [parseLockLines_field (strL "trust_state") (strL "  trust_state ") (strL "ed25519") _ _
    (by decide) (by decide) (by decide) (by decide) (by decide) (by decide) (by decide)]
  rw [parseLockLines_end]

theorem containsSub_cons (c : Char) (s pat : Str) (h : containsSub s pat = true) :
    containsSub (c :: s) pat = true := by
  unfold containsSub at h ⊢
  rw [List.tails_cons]
  simp only [List.any_cons, h, Bool.or_true]

theorem containsSub_append_left (l r pat : Str) (h : containsSub r pat = true) :
    containsSub (l ++ r) pat = true := by
  induction l with
  | nil => simpa using h
  | cons c t ih =>
    rw [List.cons_append]
    exact containsSub_cons _ _ _ ih

/-- C8 (amended): every lock file written by `createLockFile` records
`trust_state ed25519`, whatever the package, source or trust path was —
including installs from the local source, whose verification was bypassed. -/
theorem c8_trust_state_always_ed25519 (packageName repo sourceURL sourceType sourceRef
    sourceVersion recipeVersion recipeURL installedAt shelfPath symlinkPath configDir : Str) :
    containsSub (createLockFileContent packageName repo sourceURL sourceType sourceRef
      sourceVersion recipeVersion recipeURL installedAt shelfPath symlinkPath configDir)
      (strL "trust_state ed25519") = true := by
  unfold createLockFileContent
  rw [← joinNl_append_nil _ (by simp [lockLines])]
  simp only [lockLines, List.cons_append, List.nil_append, joinNl]
  apply containsSub_append_left
  apply containsSub_cons
  apply containsSub_append_left
  apply containsSub_cons
  apply containsSub_append_left
  apply containsSub_cons
  apply containsSub_append_left
  apply containsSub_cons
  apply containsSub_append_left
  apply containsSub_cons
  apply containsSub_append_left
  apply containsSub_cons
  apply containsSub_append_left
  apply containsSub_cons
  apply containsSub_append_left
  apply containsSub_cons
  apply containsSub_append_left
  apply containsSub_cons
  apply containsSub_append_left
  apply containsSub_cons
  apply containsSub_append_left
  apply containsSub_cons
  apply containsSub_append_left
  apply containsSub_cons
  apply containsSub_append_left
  apply containsSub_cons
  decide

/-- Counterexample to C8 as stated: a record written for an install whose
recipe came from the local source (`repo = local`, `recipe_url = local`, so
trust verification was bypassed) still reads back `trust_state = ed25519`,
not the `local`/bypassed marker the claim requires. -/
theorem c8_counterexample :
    mapGet (parseLockFile (createLockFileContent (strL "mypkg") (strL "local")
        (strL "https://x/y.git") (strL "git") (strL "HEAD") (strL "abcd1234")
        (strL "aa") (strL "local") (strL "2025-01-01T00:00:00Z") (strL "/s")
        (strL "/b") (strL "/c")))
      (strL "trust_state") = strL "ed25519" ∧
    strL "ed25519" ≠ strL "local" := by
  constructor
  · decide
  · decide

/-- Record obtained by writing a lock file and reading it back. -/
def writtenLock (p r su st sr sv rv ru ia sp sy cd : Str) : LockMap :=
  parseLockFile (createLockFileContent p r su st sr sv rv ru ia sp sy cd)

theorem mapGet_nil (key : Str) : mapGet [] key = [] := rfl

/-- Canonical keys are not legacy aliases, so writing one is a plain map
assignment whose value reads back unchanged. -/
theorem mapGet_condStep_canonical (m : LockMap) (ck w : Str) (hw0 : w ≠ [])
    (h1 : ck ≠ strL "source") (h2 : ck ≠ strL "source_type")
    (h3 : ck ≠ strL "source_version") (h4 : ck ≠ strL "sha256") :
    mapGet (condStep m ck w) ck = w := by
  unfold condStep
  rw [if_neg hw0, aliasStep_id _ _ _ h1 h2 h3 h4, mapGet_insert_eq]

/-- Parsing a lock block with a single well-formed `key value` line. -/
theorem parseLockFile_one_field (k pre v : Str)
    (hpre : pre = strL "  " ++ (k ++ [' ']))
    (hknil : k ≠ []) (hksp : ' ' ∉ k) (hktr : trimRightSpace k = k) (hknl : '\n' ∉ k)
    (hhead : isGoSpace (k.headD 'x') = false ∧ k.headD 'x' ≠ '[' ∧
      k.headD 'x' ≠ '#' ∧ k.headD 'x' ≠ 'e')
    (hv : lineSafe v) :
    parseLockFile (joinNl [strL "[data -c lock]", pre ++ v, strL "end"]) =
      condStep [] k v := by
  have hprenl : '\n' ∉ pre := by
    rw [hpre]
    exact no_nl_append _ _ (by decide) (no_nl_append _ _ hknl (by decide))
  have hnl : ∀ l ∈ [strL "[data -c lock]", pre ++ v, strL "end"], '\n' ∉ l := by
    intro l hl
    simp only [List.mem_cons, List.mem_singleton, List.not_mem_nil, or_false] at hl
    rcases hl with rfl | rfl | rfl
    · decide
    · exact no_nl_append _ _ hprenl hv.1
    · decide
  unfold parseLockFile
  rw [splitOnNl_joinNl _ (by simp) hnl]
  rw [parseLockLines_open]
  rw [parseLockLines_field k pre v _ _ hpre hknil hksp hktr hhead hv.2.1 hv.2.2]
  rw [parseLockLines_end]

/-- Parsing a lock block with two well-formed `key value` lines. -/
theorem parseLockFile_two_fields (k1 pre1 v1 k2 pre2 v2 : Str)
    (hpre1 : pre1 = strL "  " ++ (k1 ++ [' ']))
    (hk1nil : k1 ≠ []) (hk1sp : ' ' ∉ k1) (hk1tr : trimRightSpace k1 = k1)
    (hk1nl : '\n' ∉ k1)
    (hhead1 : isGoSpace (k1.headD 'x') = false ∧ k1.headD 'x' ≠ '[' ∧
      k1.headD 'x' ≠ '#' ∧ k1.headD 'x' ≠ 'e')
    (hv1 : lineSafe v1)
    (hpre2 : pre2 = strL "  " ++ (k2 ++ [' ']))
    (hk2nil : k2 ≠ []) (hk2sp : ' ' ∉ k2) (hk2tr : trimRightSpace k2 = k2)
    (hk2nl : '\n' ∉ k2)
    (hhead2 : isGoSpace (k2.headD 'x') = false ∧ k2.headD 'x' ≠ '[' ∧
      k2.headD 'x' ≠ '#' ∧ k2.headD 'x' ≠ 'e')
    (hv2 : lineSafe v2) :
    parseLockFile (joinNl [strL "[data -c lock]", pre1 ++ v1, pre2 ++ v2, strL "end"]) =
      condStep (condStep [] k1 v1) k2 v2 := by
  have hprenl1 : '\n' ∉ pre1 := by
    rw [hpre1]
    exact no_nl_append _ _ (by decide) (no_nl_append _ _ hk1nl (by decide))
  have hprenl2 : '\n' ∉ pre2 := by
    rw [hpre2]
    exact no_nl_append _ _ (by decide) (no_nl_append _ _ hk2nl (by decide))
  have hnl : ∀ l ∈ [strL "[data -c lock]", pre1 ++ v1, pre2 ++ v2, strL "end"],
      '\n' ∉ l := by
    intro l hl
    simp only [List.mem_cons, List.mem_singleton, List.not_mem_nil, or_false] at hl
    rcases hl with rfl | rfl | rfl | rfl
    · decide
    · exact no_nl_append _ _ hprenl1 hv1.1
    · exact no_nl_append _ _ hprenl2 hv2.1
    · decide
  unfold parseLockFile
  rw [splitOnNl_joinNl _ (by simp) hnl]
  rw [parseLockLines_open]
  rw [parseLockLines_field k1 pre1 v1 _ _ hpre1 hk1nil hk1sp hk1tr hhead1 hv1.2.1 hv1.2.2]
  rw [parseLockLines_field k2 pre2 v2 _ _ hpre2 hk2nil hk2sp hk2tr hhead2 hv2.2.1 hv2.2.2]
  rw [parseLockLines_end]

/-- C9 (amended): for records written by `createLockFile` whose field values
are single-line and carry no leading or trailing whitespace, parsing returns
identical values for every field; each legacy key maps onto its canonical
field when the canonical key is absent — `source` onto `src_url`,
`source_type` onto `src_type`, `source_version` onto `src_ref_used`, `sha256`
onto `recipe_sha256` — and a nonempty canonical key takes precedence over its
alias in either line order. -/
theorem c9_lock_roundtrip_trimmed (p r su st sr sv rv ru ia sp sy cd : Str)
    (hp : lineSafe p) (hr : lineSafe r) (hsu : lineSafe su) (hst : lineSafe st)
    (hsr : lineSafe sr) (hsv : lineSafe sv) (hrv : lineSafe rv) (hru : lineSafe ru)
    (hia : lineSafe ia) (hsp : lineSafe sp) (hsy : lineSafe sy) (hcd : lineSafe cd) :
    (mapGet (writtenLock p r su st sr sv rv ru ia sp sy cd) (strL "package") = p ∧
     mapGet (writtenLock p r su st sr sv rv ru ia sp sy cd) (strL "repo") = r ∧
     mapGet (writtenLock p r su st sr sv rv ru ia sp sy cd) (strL "src_url") = su ∧
     mapGet (writtenLock p r su st sr sv rv ru ia sp sy cd) (strL "src_type") = st ∧
     mapGet (writtenLock p r su st sr sv rv ru ia sp sy cd) (strL "src_ref") = sr ∧
     mapGet (writtenLock p r su st sr sv rv ru ia sp sy cd) (strL "src_ref_used") = sv ∧
     mapGet (writtenLock p r su st sr sv rv ru ia sp sy cd) (strL "recipe_sha256") = rv ∧
     mapGet (writtenLock p r su st sr sv rv ru ia sp sy cd) (strL "recipe_url") = ru ∧
     mapGet (writtenLock p r su st sr sv rv ru ia sp sy cd) (strL "installed_at") = ia ∧
     mapGet (writtenLock p r su st sr sv rv ru ia sp sy cd) (strL "shelf_path") = sp ∧
     mapGet (writtenLock p r su st sr sv rv ru ia sp sy cd) (strL "symlink_path") = sy ∧
     mapGet (writtenLock p r su st sr sv rv ru ia sp sy cd) (strL "config_dir") = cd ∧
     mapGet (writtenLock p r su st sr sv rv ru ia sp sy cd) (strL "trust_state") =
       strL "ed25519") ∧
    (∀ v : Str, lineSafe v →
      mapGet (parseLockFile (joinNl
          [strL "[data -c lock]", strL "  source " ++ v, strL "end"]))
        (strL "src_url") = v) ∧
    (∀ v w : Str, lineSafe v → lineSafe w → w ≠ [] →
      mapGet (parseLockFile (joinNl
          [strL "[data -c lock]", strL "  source " ++ v, strL "  src_url " ++ w,
           strL "end"])) (strL "src_url") = w ∧
      mapGet (parseLockFile (joinNl
          [strL "[data -c lock]", strL "  src_url " ++ w, strL "  source " ++ v,
           strL "end"])) (strL "src_url") = w) ∧
    (∀ v : Str, lineSafe v →
      mapGet (parseLockFile (joinNl
          [strL "[data -c lock]", strL "  source_type " ++ v, strL "end"]))
        (strL "src_type") = v ∧
      mapGet (parseLockFile (joinNl
          [strL "[data -c lock]", strL "  source_version " ++ v, strL "end"]))
        (strL "src_ref_used") = v ∧
      mapGet (parseLockFile (joinNl
          [strL "[data -c lock]", strL "  sha256 " ++ v, strL "end"]))
        (strL "recipe_sha256") = v) ∧
    (∀ v w : Str, lineSafe v → lineSafe w → w ≠ [] →
      (mapGet (parseLockFile (joinNl
          [strL "[data -c lock]", strL "  source_type " ++ v,
           strL "  src_type " ++ w, strL "end"])) (strL "src_type") = w ∧
       mapGet (parseLockFile (joinNl
          [strL "[data -c lock]", strL "  src_type " ++ w,
           strL "  source_type " ++ v, strL "end"])) (strL "src_type") = w) ∧
      (mapGet (parseLockFile (joinNl
          [strL "[data -c lock]", strL "  source_version " ++ v,
           strL "  src_ref_used " ++ w, strL "end"])) (strL "src_ref_used") = w ∧
       mapGet (parseLockFile (joinNl
          [strL "[data -c lock]", strL "  src_ref_used " ++ w,
           strL "  source_version " ++ v, strL "end"])) (strL "src_ref_used") = w) ∧
      (mapGet (parseLockFile (joinNl
          [strL "[data -c lock]", strL "  sha256 " ++ v,
           strL "  recipe_sha256 " ++ w, strL "end"])) (strL "recipe_sha256") = w ∧
       mapGet (parseLockFile (joinNl
          [strL "[data -c lock]", strL "  recipe_sha256 " ++ w,
           strL "  sha256 " ++ v, strL "end"])) (strL "recipe_sha256") = w)) := by
  refine ⟨?_, ?_, ?_, ?_, ?_⟩
  · have hM := parseLock_createLock p r su st sr sv rv ru ia sp sy cd
      hp hr hsu hst hsr hsv hrv hru hia hsp hsy hcd
    unfold writtenLock
    rw [hM]
    refine ⟨?_, ?_, ?_, ?_, ?_, ?_, ?_, ?_, ?_, ?_, ?_, ?_, ?_⟩ <;>
      (simp (disch := decide) only [mapGet_condStep_ne, mapGet_condStep_eq, mapGet_nil]
       split
       · simp_all
       · rfl)
  · intro v hv
    have hnl : ∀ l ∈ [strL "[data -c lock]", strL "  source " ++ v, strL "end"],
        '\n' ∉ l := by
      intro l hl
      simp only [List.mem_cons, List.mem_singleton, List.not_mem_nil, or_false] at hl
      rcases hl with rfl | rfl | rfl
      · decide
      · exact no_nl_append _ _ (by decide) hv.1
      · decide
    unfold parseLockFile
    rw [splitOnNl_joinNl _ (by simp) hnl]
    rw [parseLockLines_open]
    rw [parseLockLines_field (strL "source") (strL "  source ") v _ _
      (by decide) (by decide) (by decide) (by decide) (by decide) hv.2.1 hv.2.2]
    rw [parseLockLines_end]
    unfold condStep
    by_cases h0 : v = []
    · rw [if_pos h0]
      simp [mapGet, h0]
    · rw [if_neg h0]
      simp [aliasStep, mapInsert, mapContains, mapGet]
  · intro v w hv hw hw0
    constructor
    · have hnl : ∀ l ∈ [strL "[data -c lock]", strL "  source " ++ v,
          strL "  src_url " ++ w, strL "end"], '\n' ∉ l := by
        intro l hl
        simp only [List.mem_cons, List.mem_singleton, List.not_mem_nil, or_false] at hl
        rcases hl with rfl | rfl | rfl | rfl
        · decide
        · exact no_nl_append _ _ (by decide) hv.1
        · exact no_nl_append _ _ (by decide) hw.1
        · decide
      unfold parseLockFile
      rw [splitOnNl_joinNl _ (by simp) hnl]
      rw [parseLockLines_open]
      rw [parseLockLines_field (strL "source") (strL "  source ") v _ _
        (by decide) (by decide) (by decide) (by decide) (by decide) hv.2.1 hv.2.2]
      rw [parseLockLines_field (strL "src_url") (strL "  src_url ") w _ _
        (by decide) (by decide) (by decide) (by decide) (by decide) hw.2.1 hw.2.2]
      rw [parseLockLines_end]
      rw [show condStep (condStep [] (strL "source") v) (strL "src_url") w =
          aliasStep (mapInsert (condStep [] (strL "source") v) (strL "src_url") w)
            (strL "src_url") w from by unfold condStep; rw [if_neg hw0]]
      rw [aliasStep_id _ (strL "src_url") w (by decide) (by decide) (by decide) (by decide),
        mapGet_insert_eq]
    · have hnl : ∀ l ∈ [strL "[data -c lock]", strL "  src_url " ++ w,
          strL "  source " ++ v, strL "end"], '\n' ∉ l := by
        intro l hl
        simp only [List.mem_cons, List.mem_singleton, List.not_mem_nil, or_false] at hl
        rcases hl with rfl | rfl | rfl | rfl
        · decide
        · exact no_nl_append _ _ (by decide) hw.1
        · exact no_nl_append _ _ (by decide) hv.1
        · decide
      unfold parseLockFile
      rw [splitOnNl_joinNl _ (by simp) hnl]
      rw [parseLockLines_open]
      rw [parseLockLines_field (strL "src_url") (strL "  src_url ") w _ _
        (by decide) (by decide) (by decide) (by decide) (by decide) hw.2.1 hw.2.2]
      rw [parseLockLines_field (strL "source") (strL "  source ") v _ _
        (by decide) (by decide) (by decide) (by decide) (by decide) hv.2.1 hv.2.2]
      rw [parseLockLines_end]
      rw [show condStep [] (strL "src_url") w = [(strL "src_url", w)] from by
        unfold condStep
        rw [if_neg hw0, aliasStep_id _ (strL "src_url") w (by decide) (by decide)
          (by decide) (by decide)]
        rfl]
      unfold condStep
      by_cases h0 : v = []
      · rw [if_pos h0]
        simp [mapGet]
      · rw [if_neg h0]
        simp [aliasStep, mapInsert, mapContains, mapGet]
  · intro v hv
    refine ⟨?_, ?_, ?_⟩
    · rw [parseLockFile_one_field (strL "source_type") (strL "  source_type ") v
        (by decide) (by decide) (by decide) (by decide) (by decide) (by decide) hv]
      unfold condStep
      by_cases h0 : v = []
      · rw [if_pos h0]
        simp [mapGet, h0]
      · rw [if_neg h0]
        simp [aliasStep, mapInsert, mapContains, mapGet]
    · rw [parseLockFile_one_field (strL "source_version") (strL "  source_version ") v
        (by decide) (by decide) (by decide) (by decide) (by decide) (by decide) hv]
      unfold condStep
      by_cases h0 : v = []
      · rw [if_pos h0]
        simp [mapGet, h0]
      · rw [if_neg h0]
        simp [aliasStep, mapInsert, mapContains, mapGet]
    · rw [parseLockFile_one_field (strL "sha256") (strL "  sha256 ") v
        (by decide) (by decide) (by decide) (by decide) (by decide) (by decide) hv]
      unfold condStep
      by_cases h0 : v = []
      · rw [if_pos h0]
        simp [mapGet, h0]
      · rw [if_neg h0]
        simp [aliasStep, mapInsert, mapContains, mapGet]
  · intro v w hv hw hw0
    refine ⟨⟨?_, ?_⟩, ⟨?_, ?_⟩, ⟨?_, ?_⟩⟩
    · rw [parseLockFile_two_fields (strL "source_type") (strL "  source_type ") v
        (strL "src_type") (strL "  src_type ") w
        (by decide) (by decide) (by decide) (by decide) (by decide) (by decide) hv
        (by decide) (by decide) (by decide) (by decide) (by decide) (by decide) hw]
      exact mapGet_condStep_canonical _ (strL "src_type") w hw0
        (by decide) (by decide) (by decide) (by decide)
    · rw [parseLockFile_two_fields (strL "src_type") (strL "  src_type ") w
        (strL "source_type") (strL "  source_type ") v
        (by decide) (by decide) (by decide) (by decide) (by decide) (by decide) hw
        (by decide) (by decide) (by decide) (by decide) (by decide) (by decide) hv]
      rw [show condStep [] (strL "src_type") w = [(strL "src_type", w)] from by
        unfold condStep
        rw [if_neg hw0, aliasStep_id _ (strL "src_type") w (by decide) (by decide)
          (by decide) (by decide)]
        rfl]
      unfold condStep
      by_cases h0 : v = []
      · rw [if_pos h0]
        simp [mapGet]
      · rw [if_neg h0]
        simp [aliasStep, mapInsert, mapContains, mapGet]
    · rw [parseLockFile_two_fields (strL "source_version") (strL "  source_version ") v
        (strL "src_ref_used") (strL "  src_ref_used ") w
        (by decide) (by decide) (by decide) (by decide) (by decide) (by decide) hv
        (by decide) (by decide) (by decide) (by decide) (by decide) (by decide) hw]
      exact mapGet_condStep_canonical _ (strL "src_ref_used") w hw0
        (by decide) (by decide) (by decide) (by decide)
    · rw [parseLockFile_two_fields (strL "src_ref_used") (strL "  src_ref_used ") w
        (strL "source_version") (strL "  source_version ") v
        (by decide) (by decide) (by decide) (by decide) (by decide) (by decide) hw
        (by decide) (by decide) (by decide) (by decide) (by decide) (by decide) hv]
      rw [show condStep [] (strL "src_ref_used") w = [(strL "src_ref_used", w)] from by
        unfold condStep
        rw [if_neg hw0, aliasStep_id _ (strL "src_ref_used") w (by decide) (by decide)
          (by decide) (by decide)]
        rfl]
      unfold condStep
      by_cases h0 : v = []
      · rw [if_pos h0]
        simp [mapGet]
      · rw [if_neg h0]
        simp [aliasStep, mapInsert, mapContains, mapGet]
    · rw [parseLockFile_two_fields (strL "sha256") (strL "  sha256 ") v
        (strL "recipe_sha256") (strL "  recipe_sha256 ") w
        (by decide) (by decide) (by decide) (by decide) (by decide) (by decide) hv
        (by decide) (by decide) (by decide) (by decide) (by decide) (by decide) hw]
      exact mapGet_condStep_canonical _ (strL "recipe_sha256") w hw0
        (by decide) (by decide) (by decide) (by decide)
    · rw [parseLockFile_two_fields (strL "recipe_sha256") (strL "  recipe_sha256 ") w
        (strL "sha256") (strL "  sha256 ") v
        (by decide) (by decide) (by decide) (by decide) (by decide) (by decide) hw
        (by decide) (by decide) (by decide) (by decide) (by decide) (by decide) hv]
      rw [show condStep [] (strL "recipe_sha256") w = [(strL "recipe_sha256", w)] from by
        unfold condStep
        rw [if_neg hw0, aliasStep_id _ (strL "recipe_sha256") w (by decide) (by decide)
          (by decide) (by decide)]
        rfl]
      unfold condStep
      by_cases h0 : v = []
      · rw [if_pos h0]
        simp [mapGet]
      · rw [if_neg h0]
        simp [aliasStep, mapInsert, mapContains, mapGet]

/-- Counterexample to C9 as stated: a record whose package value is the
single-line string `[space]vim` does not round-trip — parsing trims the value
to `vim`. -/
theorem c9_counterexample :
    mapGet (parseLockFile (createLockFileContent (strL " vim") (strL "r") (strL "u")
        (strL "git") (strL "HEAD") (strL "3b3b9361") (strL "h") (strL "ru")
        (strL "t") (strL "s1") (strL "s2") (strL "s3")))
      (strL "package") = strL "vim" ∧
    strL "vim" ≠ strL " vim" := by
  constructor
  · decide
  · decide

/-- Witness for `c9_lock_roundtrip_trimmed` at concrete trimmed single-line
values. -/
theorem c9_witness :
    mapGet (writtenLock (strL "vim") (strL "repoA") (strL "https://g/v.git") (strL "git")
      (strL "HEAD") (strL "3b3b9361") (strL "hash1") (strL "https://g/vim.box")
      (strL "2025-01-01T00:00:00Z") (strL "/shelf") (strL "/bin") (strL "/cfg"))
      (strL "package") = strL "vim" := by
  exact (c9_lock_roundtrip_trimmed (strL "vim") (strL "repoA") (strL "https://g/v.git")
    (strL "git") (strL "HEAD") (strL "3b3b9361") (strL "hash1") (strL "https://g/vim.box")
    (strL "2025-01-01T00:00:00Z") (strL "/shelf") (strL "/bin") (strL "/cfg")
    (by refine ⟨by decide, by decide, by decide⟩) (by refine ⟨by decide, by decide, by decide⟩)
    (by refine ⟨by decide, by decide, by decide⟩) (by refine ⟨by decide, by decide, by decide⟩)
    (by refine ⟨by decide, by decide, by decide⟩) (by refine ⟨by decide, by decide, by decide⟩)
    (by refine ⟨by decide, by decide, by decide⟩) (by refine ⟨by decide, by decide, by decide⟩)
    (by refine ⟨by decide, by decide, by decide⟩) (by refine ⟨by decide, by decide, by decide⟩)
    (by refine ⟨by decide, by decide, by decide⟩) (by refine ⟨by decide, by decide, by decide⟩)).1.1

/-! ## SourceResolver: candidate discovery
(findAvailableSources src/main.go:1166) -/

/-- Go struct `PackageSource` (src/main.go:1160); the Go field `Type` is named
`Typ` because `Type` is reserved in Lean. -/
structure PackageSource where
  Name : Str
  URL : Str
  Typ : Str
deriving DecidableEq, Repr

/-- Recipe URL probed for one configured source (src/main.go:1187-1191). -/
def scriptURLFor (source packageName : Str) : Str :=
  if containsSub source (strL "raw.githubusercontent.com") = true then
    source ++ strL "/" ++ packageName ++ strL ".box"
  else source ++ strL "/raw/main/" ++ packageName ++ strL ".box"

/-- Go `findAvailableSources` (src/main.go:1166): `localHas` states whether the
local override directory holds `packageName.box` (the `os.Stat` check),
`configSources` is the configured source list (empty when `loadConfig` fails),
and `probe` is the `testPackageExists` HEAD request. -/
def findAvailableSources (localHas : Bool) (localPackagePath : Str)
    (configSources : List Str) (probe : Str → Bool) (packageName : Str) :
    List PackageSource :=
  (if localHas then
    [{ Name := strL "local", URL := localPackagePath, Typ := strL "local" }]
   else []) ++
  configSources.filterMap (fun src =>
    if probe (scriptURLFor src packageName) then
      some { Name := src, URL := scriptURLFor src packageName, Typ := strL "remote" }
    else none)

/-! ## LockLedger: the update reconciliation algorithm
(checkPackageForUpdate src/main.go:2951, getCurrentRecipeVersion
src/main.go:2993, getCurrentSourceVersion src/main.go:3012, getGitHeadCommit
src/main.go:2283) -/

/-- Go struct `PackageUpdate` (src/main.go:2837). -/
structure PackageUpdate where
  PackageName : Str
  CurrentVersion : Str
  NewVersion : Str
  UpdateType : Str
deriving DecidableEq, Repr

/-- Go `getGitHeadCommit` (src/main.go:2283): query `git ls-remote url HEAD`
through the external `lsRemote` (`none` models a command failure), take the
first whitespace-separated field and abbreviate to 8 characters.  Go slices
`parts[0][:8]`, which would panic on a shorter field; ls-remote emits 40-char
hashes, and the abbreviation is modelled as taking at most 8 characters. -/
def getGitHeadCommit (lsRemote : Str → Str → Option Str) (repoURL : Str) : Option Str :=
  match lsRemote repoURL (strL "HEAD") with
  | none => none
  | some out =>
    match goFields out with
    | [] => none
    | w :: _ => some (w.take 8)

/-- Go `getCurrentSourceVersion` (src/main.go:3012): git sources resolve HEAD,
`download` sources answer the constant `latest` with no network access, and
any other type is an `unknown source type` error (`none`). -/
def getCurrentSourceVersion (lsRemote : Str → Str → Option Str)
    (sourceURL sourceType : Str) : Option Str :=
  if sourceType = strL "git" then getGitHeadCommit lsRemote sourceURL
  else if sourceType = strL "download" then some (strL "latest")
  else none

/-- Recipe half of `checkPackageForUpdate` (src/main.go:2960-2968): `recipeHash`
models `getCurrentRecipeVersion` (download plus content hash; `none` is any
failure, which adds no reason). -/
def recipeReasons (recipeHash : Str → Option Str) (lockData : LockMap) : List Str :=
  if mapGet lockData (strL "recipe_url") ≠ [] ∧
      mapGet lockData (strL "recipe_url") ≠ strL "local" then
    match recipeHash (mapGet lockData (strL "recipe_url")) with
    | some h =>
      if h ≠ mapGet lockData (strL "recipe_sha256") then [strL "recipe updated"] else []
    | none => []
  else []

/-- Source half of `checkPackageForUpdate` (src/main.go:2970-2979): the added
reasons and the new version recorded on a difference. -/
def sourceCheck (lsRemote : Str → Str → Option Str) (lockData : LockMap) :
    List Str × Str :=
  if mapGet lockData (strL "src_url") ≠ [] ∧
      mapGet lockData (strL "src_url") ≠ strL "unknown" then
    match getCurrentSourceVersion lsRemote (mapGet lockData (strL "src_url"))
        (mapGet lockData (strL "src_type")) with
    | some nv =>
      if nv ≠ mapGet lockData (strL "src_ref_used") then ([strL "source updated"], nv)
      else ([], [])
    | none => ([], [])
  else ([], [])

/-- Go `checkPackageForUpdate` (src/main.go:2951).  The third component is the
Go error value, which the function returns as nil on every path. -/
def checkPackageForUpdate (recipeHash : Str → Option Str)
    (lsRemote : Str → Str → Option Str) (packageName : Str) (lockData : LockMap) :
    PackageUpdate × Bool × Option Str :=
  if recipeReasons recipeHash lockData ++ (sourceCheck lsRemote lockData).1 = [] then
    ({ PackageName := packageName,
       CurrentVersion := mapGet lockData (strL "src_ref_used"), NewVersion := [],
       UpdateType := [] }, false, none)
  else
    ({ PackageName := packageName,
       CurrentVersion := mapGet lockData (strL "src_ref_used"),
       NewVersion :=
         if (sourceCheck lsRemote lockData).2 = [] then strL "latest"
         else (sourceCheck lsRemote lockData).2,
       UpdateType := List.intercalate (strL ", ")
         (recipeReasons recipeHash lockData ++ (sourceCheck lsRemote lockData).1) },
     true, none)

/-- Modelled from the claim and spec wording for C7: the current commit of the
RECORD's tracked ref (`src_ref`), resolved by a remote ref query and
abbreviated to 8 characters.  The source code instead queries HEAD; this
definition exists to be compared against the embedded code. -/
def claimTrackedRefCommit (lsRemote : Str → Str → Option Str) (lockData : LockMap) :
    Option Str :=
  match lsRemote (mapGet lockData (strL "src_url")) (mapGet lockData (strL "src_ref")) with
  | none => none
  | some out =>
    match goFields out with
    | [] => none
    | w :: _ => some (w.take 8)

theorem goFieldsGo_mem_ne_nil (s : Str) :
    ∀ (acc w : Str), w ∈ goFieldsGo s acc → w ≠ [] := by
  induction s with
  | nil =>
    intro acc w hw
    unfold goFieldsGo at hw
    by_cases ha : acc = []
    · rw [if_pos ha] at hw
      simp at hw
    · rw [if_neg ha] at hw
      simp only [List.mem_singleton] at hw
      subst hw
      simpa using ha
  | cons c rest ih =>
    intro acc w hw
    unfold goFieldsGo at hw
    by_cases hc : isGoSpace c = true
    · rw [if_pos hc] at hw
      by_cases ha : acc = []
      · rw [if_pos ha] at hw
        exact ih [] w hw
      · rw [if_neg ha] at hw
        rcases List.mem_cons.mp hw with h1 | h2
        · subst h1
          simpa using ha
        · exact ih [] w h2
    · rw [if_neg hc] at hw
      exact ih (c :: acc) w hw

theorem mem_goFields_ne_nil (s w : Str) (h : w ∈ goFields s) : w ≠ [] :=
  goFieldsGo_mem_ne_nil s [] w h

theorem containsSub_of_starts (s pat : Str) (h : startsWith s pat = true) :
    containsSub s pat = true := by
  cases s with
  | nil => simpa [containsSub] using h
  | cons c t =>
    unfold containsSub
    rw [List.tails_cons]
    simp [List.any_cons, h]

theorem startsWith_append_self (pat r : Str) : startsWith (pat ++ r) pat = true := by
  induction pat with
  | nil => simp [startsWith, List.isPrefixOf]
  | cons c t ih =>
    simp only [List.cons_append, startsWith, List.isPrefixOf, beq_self_eq_true,
      Bool.true_and]
    exact ih

theorem recipeReasons_cases (recipeHash : Str → Option Str) (lockData : LockMap) :
    recipeReasons recipeHash lockData = [] ∨
      recipeReasons recipeHash lockData = [strL "recipe updated"] := by
  unfold recipeReasons
  split
  · rcases recipeHash (mapGet lockData (strL "recipe_url")) with _ | h
    · left; rfl
    · simp only
      split
      · right; rfl
      · left; rfl
  · left; rfl

theorem recipeReasons_unreachable (lockData : LockMap) :
    recipeReasons (fun _ => none) lockData = [] := by
  unfold recipeReasons
  split <;> rfl

theorem sourceCheck_nongit (lsRemote : Str → Str → Option Str) (lockData : LockMap)
    (hgit : mapGet lockData (strL "src_type") ≠ strL "git")
    (hdl : mapGet lockData (strL "src_type") ≠ strL "download") :
    sourceCheck lsRemote lockData = ([], []) := by
  unfold sourceCheck getCurrentSourceVersion
  rw [if_neg hgit, if_neg hdl]
  split <;> rfl

theorem sourceCheck_git_unreachable (lockData : LockMap)
    (hdl : mapGet lockData (strL "src_type") ≠ strL "download") :
    sourceCheck (fun _ _ => none) lockData = ([], []) := by
  unfold sourceCheck
  have hv : getCurrentSourceVersion (fun _ _ => none) (mapGet lockData (strL "src_url"))
      (mapGet lockData (strL "src_type")) = none := by
    unfold getCurrentSourceVersion getGitHeadCommit
    by_cases hg : mapGet lockData (strL "src_type") = strL "git"
    · rw [if_pos hg]
    · rw [if_neg hg, if_neg hdl]
  rw [hv]
  split <;> rfl

/-- C4 (amended): with the network fully unreachable (every recipe download and
every git remote query fails), reconciliation of any record whose source type
is not the `download` sentinel reports no update and no error; and on every
record, with any network behaviour, `checkPackageForUpdate` returns a nil
error, so one bad record cannot abort a batch scan. -/
theorem c4_unreachable_reports_up_to_date (packageName : Str) (lockData : LockMap)
    (hdl : mapGet lockData (strL "src_type") ≠ strL "download") :
    checkPackageForUpdate (fun _ => none) (fun _ _ => none) packageName lockData =
      ({ PackageName := packageName,
         CurrentVersion := mapGet lockData (strL "src_ref_used"),
         NewVersion := [], UpdateType := [] }, false, none) ∧
    (∀ (recipeHash : Str → Option Str) (lsRemote : Str → Str → Option Str),
      (checkPackageForUpdate recipeHash lsRemote packageName lockData).2.2 = none) := by
  constructor
  · unfold checkPackageForUpdate
    rw [recipeReasons_unreachable, sourceCheck_git_unreachable lockData hdl]
    rfl
  · intro recipeHash lsRemote
    unfold checkPackageForUpdate
    split <;> rfl

/-- Witness for `c4_unreachable_reports_up_to_date`: a git record on a dead
host scans as up to date with no error. -/
theorem c4_witness :
    checkPackageForUpdate (fun _ => none) (fun _ _ => none) (strL "vim")
      [(strL "src_url", strL "https://dead/vim.git"), (strL "src_type", strL "git"),
       (strL "src_ref_used", strL "3b3b9361"),
       (strL "recipe_url", strL "https://dead/vim.box"),
       (strL "recipe_sha256", strL "aa")] =
      ({ PackageName := strL "vim", CurrentVersion := strL "3b3b9361",
         NewVersion := [], UpdateType := [] }, false, none) := by
  exact (c4_unreachable_reports_up_to_date (strL "vim")
    [(strL "src_url", strL "https://dead/vim.git"), (strL "src_type", strL "git"),
     (strL "src_ref_used", strL "3b3b9361"),
     (strL "recipe_url", strL "https://dead/vim.box"),
     (strL "recipe_sha256", strL "aa")] (by decide)).1

/-- Counterexample to C4 as stated: a `download`-type record whose recipe URL
and source URL are both unreachable still reports an available update, because
the source check compares the constant `latest` without touching the network. -/
theorem c4_counterexample :
    (checkPackageForUpdate (fun _ => none) (fun _ _ => none) (strL "pkg")
      [(strL "src_url", strL "https://dead/x.tgz"), (strL "src_type", strL "download"),
       (strL "src_ref_used", strL "unknown"),
       (strL "recipe_url", strL "https://dead/x.box"),
       (strL "recipe_sha256", strL "aa")]).2.1 = true := by
  decide

/-- C5 (amended): when the local override directory holds the recipe, the local
source is the FIRST candidate, but remote discovery still runs: the returned
list is the local candidate followed by exactly the probed remote candidates,
each of which answered the existence probe. -/
theorem c5_local_first_not_sole (localPackagePath : Str) (configSources : List Str)
    (probe : Str → Bool) (packageName : Str) :
    findAvailableSources true localPackagePath configSources probe packageName =
      { Name := strL "local", URL := localPackagePath, Typ := strL "local" } ::
        findAvailableSources false localPackagePath configSources probe packageName ∧
    (∀ s ∈ findAvailableSources false localPackagePath configSources probe packageName,
      s.Typ = strL "remote" ∧ probe s.URL = true) := by
  constructor
  · simp [findAvailableSources]
  · intro s hs
    simp only [findAvailableSources, if_neg (by simp : ¬false = true), List.nil_append,
      List.mem_filterMap] at hs
    obtain ⟨src, _, hmap⟩ := hs
    by_cases hp : probe (scriptURLFor src packageName) = true
    · rw [if_pos hp] at hmap
      cases hmap
      exact ⟨rfl, hp⟩
    · rw [if_neg hp] at hmap
      exact absurd hmap (by simp)

/-- Witness for `c5_local_first_not_sole` at a concrete configuration. -/
theorem c5_witness :
    (∀ s ∈ findAvailableSources false (strL "/l/vim.box") [strL "https://h"]
        (fun _ => true) (strL "vim"),
      s.Typ = strL "remote" ∧ (fun (_ : Str) => true) s.URL = true) := by
  exact (c5_local_first_not_sole (strL "/l/vim.box") [strL "https://h"]
    (fun _ => true) (strL "vim")).2

/-- Counterexample to C5 as stated: with a local recipe present and one
responsive configured remote, discovery returns two candidates, so the local
source is not the sole candidate and the remote was probed and included. -/
theorem c5_counterexample :
    (findAvailableSources true (strL "/l/vim.box") [strL "https://h"] (fun _ => true)
      (strL "vim")).length = 2 := by
  decide

/-- C6 (amended): for a source type that is neither `git` nor `download`, the
source check adds nothing (such sources are treated as current, via the
`unknown source type` error), and any reported update can only say
`recipe updated`; for the `download` type the code does compare — with no
network access — the constant `latest` against the recorded version, adding
`source updated` exactly when they differ. -/
theorem c6_nongit_source_check (recipeHash : Str → Option Str)
    (lsRemote : Str → Str → Option Str) (packageName : Str) (lockData : LockMap) :
    (mapGet lockData (strL "src_type") ≠ strL "git" →
     mapGet lockData (strL "src_type") ≠ strL "download" →
      sourceCheck lsRemote lockData = ([], []) ∧
      ((checkPackageForUpdate recipeHash lsRemote packageName lockData).1.UpdateType = [] ∨
       (checkPackageForUpdate recipeHash lsRemote packageName lockData).1.UpdateType =
         strL "recipe updated")) ∧
    (mapGet lockData (strL "src_type") = strL "download" →
     mapGet lockData (strL "src_url") ≠ [] →
     mapGet lockData (strL "src_url") ≠ strL "unknown" →
      sourceCheck lsRemote lockData =
        (if mapGet lockData (strL "src_ref_used") = strL "latest" then ([], [])
         else ([strL "source updated"], strL "latest"))) := by
  constructor
  · intro hgit hdl
    have hsc := sourceCheck_nongit lsRemote lockData hgit hdl
    refine ⟨hsc, ?_⟩
    unfold checkPackageForUpdate
    rw [hsc]
    rcases recipeReasons_cases recipeHash lockData with hrr | hrr <;> rw [hrr]
    · left; rfl
    · right; rfl
  · intro hdl hu1 hu2
    unfold sourceCheck getCurrentSourceVersion
    rw [if_pos ⟨hu1, hu2⟩, hdl]
    rw [if_neg (by decide), if_pos rfl]
    simp only
    by_cases he : mapGet lockData (strL "src_ref_used") = strL "latest"
    · rw [if_pos he, if_neg (by simp [he]), ]
    · rw [if_neg he, if_pos (by simpa using Ne.symm he)]

/-- Witness for `c6_nongit_source_check`: an `archive`-type record adds no
source reason even when the remote oracle would answer. -/
theorem c6_witness :
    sourceCheck (fun _ _ => some (strL "zzzz")) [(strL "src_url", strL "https://a/b.tgz"),
      (strL "src_type", strL "archive"), (strL "src_ref_used", strL "v1")] = ([], []) := by
  exact ((c6_nongit_source_check (fun _ => none) (fun _ _ => some (strL "zzzz"))
    (strL "p") [(strL "src_url", strL "https://a/b.tgz"),
      (strL "src_type", strL "archive"), (strL "src_ref_used", strL "v1")]).1
    (by decide) (by decide)).1

/-- Counterexample to C6 as stated: a `download`-type (non-git) record gets the
reason `source updated` even though no source comparison over the network is
possible. -/
theorem c6_counterexample :
    (checkPackageForUpdate (fun _ => none) (fun _ _ => none) (strL "pkg")
      [(strL "src_url", strL "https://dead/x.tgz"), (strL "src_type", strL "download"),
       (strL "src_ref_used", strL "unknown"),
       (strL "recipe_url", strL "local")]).1.UpdateType = strL "source updated" ∧
    strL "download" ≠ strL "git" := by
  constructor
  · decide
  · decide

theorem startsWith_self (s : Str) : startsWith s s = true := by
  unfold startsWith
  induction s with
  | nil => rfl
  | cons c t ih => simp [List.isPrefixOf, ih]

theorem intercalate_single (sep a : Str) : List.intercalate sep [a] = a := by
  simp [List.intercalate, List.intersperse]

theorem intercalate_pair (sep a b : Str) : List.intercalate sep [a, b] = a ++ sep ++ b := by
  simp [List.intercalate, List.intersperse]

/-- C7 (amended): for a git-type record, reconciliation resolves the current
commit of the repository HEAD — not of the record's tracked ref — as an
8-character abbreviation of the first field of the remote query output, and
when it differs from `src_ref_used` it reports an update whose new version is
that 8-character id and whose reason string contains `source updated`. -/
theorem c7_git_update_uses_head (recipeHash : Str → Option Str)
    (lsRemote : Str → Str → Option Str) (packageName : Str) (lockData : LockMap)
    (out w : Str) (ws : List Str)
    (hgit : mapGet lockData (strL "src_type") = strL "git")
    (hurl : mapGet lockData (strL "src_url") ≠ [] ∧
      mapGet lockData (strL "src_url") ≠ strL "unknown")
    (hat : lsRemote (mapGet lockData (strL "src_url")) (strL "HEAD") = some out)
    (hfields : goFields out = w :: ws)
    (hne : w.take 8 ≠ mapGet lockData (strL "src_ref_used")) :
    (checkPackageForUpdate recipeHash lsRemote packageName lockData).2.1 = true ∧
    (checkPackageForUpdate recipeHash lsRemote packageName lockData).1.NewVersion =
      w.take 8 ∧
    containsSub (checkPackageForUpdate recipeHash lsRemote packageName lockData).1.UpdateType
      (strL "source updated") = true := by
  have hver : getCurrentSourceVersion lsRemote (mapGet lockData (strL "src_url"))
      (mapGet lockData (strL "src_type")) = some (w.take 8) := by
    unfold getCurrentSourceVersion getGitHeadCommit
    rw [hgit, if_pos rfl, hat]
    simp only [hfields]
  have hsc : sourceCheck lsRemote lockData = ([strL "source updated"], w.take 8) := by
    unfold sourceCheck
    rw [if_pos hurl, hver]
    exact if_pos hne
  have hw : w ≠ [] := mem_goFields_ne_nil out w (hfields ▸ List.mem_cons_self w ws)
  have hw8 : w.take 8 ≠ [] := by
    rcases w with _ | ⟨a, t⟩
    · exact absurd rfl hw
    · simp
  have hnonnil : recipeReasons recipeHash lockData ++ (sourceCheck lsRemote lockData).1 ≠ [] := by
    rw [hsc]
    simp [List.append_eq_nil]
  unfold checkPackageForUpdate
  rw [if_neg hnonnil]
  refine ⟨rfl, ?_, ?_⟩
  · rw [hsc]
    exact if_neg hw8
  · rw [hsc]
    rcases recipeReasons_cases recipeHash lockData with hrr | hrr <;> rw [hrr]
    · rw [List.nil_append, intercalate_single]
      exact containsSub_of_starts _ _ (startsWith_self _)
    · rw [show [strL "recipe updated"] ++ [strL "source updated"] =
        [strL "recipe updated", strL "source updated"] from rfl, intercalate_pair]
      rw [List.append_assoc]
      apply containsSub_append_left
      apply containsSub_append_left
      exact containsSub_of_starts _ _ (startsWith_self _)

/-- Witness for `c7_git_update_uses_head`: the example of the claim — a vim
record at `src_ref_used = 3b3b9361` and a remote HEAD at `a1c2d3e4...` yields
an update to `a1c2d3e4`. -/
theorem c7_witness :
    (checkPackageForUpdate (fun _ => none)
      (fun _ _ => some (strL "a1c2d3e4ffffffffffffffffffffffffffffffff\tHEAD"))
      (strL "vim")
      [(strL "src_url", strL "https://github.com/vim/vim.git"),
       (strL "src_type", strL "git"), (strL "src_ref_used", strL "3b3b9361"),
       (strL "recipe_url", strL "local")]).1.NewVersion = strL "a1c2d3e4" := by
  exact (c7_git_update_uses_head (fun _ => none)
    (fun _ _ => some (strL "a1c2d3e4ffffffffffffffffffffffffffffffff\tHEAD"))
    (strL "vim")
    [(strL "src_url", strL "https://github.com/vim/vim.git"),
     (strL "src_type", strL "git"), (strL "src_ref_used", strL "3b3b9361"),
     (strL "recipe_url", strL "local")]
    (strL "a1c2d3e4ffffffffffffffffffffffffffffffff\tHEAD")
    (strL "a1c2d3e4ffffffffffffffffffffffffffffffff") [strL "HEAD"]
    (by decide) (by decide) (by decide) (by decide) (by decide)).2.1

/-- Counterexample to C7 as stated: a record tracking ref `dev` whose dev
commit (`cccccccc...`) differs from `src_ref_used`, while HEAD still matches
it.  The claim predicts an update candidate from the tracked-ref query; the
code queries HEAD and reports no update at all. -/
theorem c7_counterexample :
    claimTrackedRefCommit
      (fun _ ref =>
        if ref = strL "HEAD" then
          some (strL "bbbbbbbb11111111111111111111111111111111\tHEAD")
        else if ref = strL "dev" then
          some (strL "cccccccc222222222222222222222222222222222\trefs/heads/dev")
        else none)
      [(strL "src_url", strL "https://g/v.git"), (strL "src_type", strL "git"),
       (strL "src_ref", strL "dev"), (strL "src_ref_used", strL "bbbbbbbb"),
       (strL "recipe_url", strL "local")] = some (strL "cccccccc") ∧
    strL "cccccccc" ≠ strL "bbbbbbbb" ∧
    (checkPackageForUpdate (fun _ => none)
      (fun _ ref =>
        if ref = strL "HEAD" then
          some (strL "bbbbbbbb11111111111111111111111111111111\tHEAD")
        else if ref = strL "dev" then
          some (strL "cccccccc222222222222222222222222222222222\trefs/heads/dev")
        else none)
      (strL "vim")
      [(strL "src_url", strL "https://g/v.git"), (strL "src_type", strL "git"),
       (strL "src_ref", strL "dev"), (strL "src_ref_used", strL "bbbbbbbb"),
       (strL "recipe_url", strL "local")]).2.1 = false := by
  refine ⟨by decide, by decide, by decide⟩

end Pack

